import Mathlib

/-!
Verification development for the AMCache registry decoder
(`plaso/parsers/amcache.py`).

The decoder core is shallowly embedded: the already-parsed registry tree
handed over by the external hive reader is a `RegfKey` tree, registry
values are `RegfValue` records, and the mediator sink is modelled as the
ordered list of emissions (`Emission`) a traversal produces.  Collaborator
I/O faults (IOError / OverflowError raised by the typed data accessors of
a value) are modelled by the `readFault` flag of a value; an uncaught
Python exception inside the decoder is modelled by the `crashed` flag of a
`Run`.  All definitions are executable and structural, so concrete runs
evaluate by `decide`.
-/

namespace Amcache

/-! ## Registry value types (`dfwinreg.definitions` REG_* type tags) -/

/-- Registry value type tag, as used by the decoder's dispatch.  The tags
the source dispatches on are named; every other REG_* type behaves like
`binary` and is collapsed into `other`. -/
inductive RegType where
  | sz
  | expandSz
  | binary
  | dword
  | dwordBigEndian
  | link
  | multiSz
  | qword
  | other (code : Nat)
deriving DecidableEq, Repr

/-- String-like registry types: REG_SZ, REG_EXPAND_SZ, REG_LINK. -/
def RegType.isStringLike : RegType → Bool
  | .sz => true
  | .expandSz => true
  | .link => true
  | _ => false

/-- Integer registry types: REG_DWORD, REG_DWORD_BIG_ENDIAN, REG_QWORD. -/
def RegType.isIntegerLike : RegType → Bool
  | .dword => true
  | .dwordBigEndian => true
  | .qword => true
  | _ => false

/-! ## External collaborator records (pyregf values and keys)

Per the input contract, a key exposes `name`, a last-written timestamp,
ordered values and ordered sub keys; a value exposes `name`, a type tag
and a raw payload (`data`, null allowed) plus the typed accessors
`get_data_as_string` / `get_data_as_integer` / `get_data_as_multi_string`.
A typed accessor may raise IOError/OverflowError; this is the `readFault`
flag.  Raw `data` attribute access is modelled as total. -/

/-- One registry value as exposed by the hive-reader collaborator. -/
structure RegfValue where
  name : String
  type : RegType
  data : Option (List Nat)
  asString : String
  asInteger : Int
  asMultiString : List String
  readFault : Bool
deriving DecidableEq, Repr

mutual
/-- One registry key of the already-parsed tree. -/
inductive RegfKey : Type where
  | node (name : String) (lastWrittenTime : Int) (values : List RegfValue)
      (subKeys : RegfForest)
deriving DecidableEq

/-- The ordered sub-key sequence of a key (a list, spelled as its own
inductive so that the traversal is structural mutual recursion). -/
inductive RegfForest : Type where
  | nil
  | cons (head : RegfKey) (tail : RegfForest)
deriving DecidableEq
end

def RegfKey.name : RegfKey → String
  | .node n _ _ _ => n

def RegfKey.lastWrittenTime : RegfKey → Int
  | .node _ t _ _ => t

def RegfKey.values : RegfKey → List RegfValue
  | .node _ _ vs _ => vs

def RegfKey.subKeys : RegfKey → RegfForest
  | .node _ _ _ s => s

/-- The sub-key sequence as a plain list (for stating properties). -/
def RegfForest.toList : RegfForest → List RegfKey
  | .nil => []
  | .cons k rest => k :: RegfForest.toList rest

/-- `pyregf_key.get_value_by_name(name)`: the first value carrying exactly
that name, or `None`. -/
def getValueByName (k : RegfKey) (n : String) : Option RegfValue :=
  k.values.find? (fun v => v.name == n)

/-! ## Decoded value data, event records, emissions -/

/-- A decoded registry value: the Python object `_GetValueDataAsObject`
produces (str, int, list of str, or raw bytes). -/
inductive ValueData where
  | str (s : String)
  | int (i : Int)
  | multiStr (l : List String)
  | bytes (b : List Nat)
deriving DecidableEq, Repr

/-- Semantic time-description tags.  Modelled from the spec: the
`TIME_DESCRIPTION_*` constants of `plaso.lib.definitions` are not part of
the given sources; the spec (§3) enumerates the five tags this artifact
uses, which are modelled as distinct enumeration members. -/
inductive TimeDescription where
  | creation
  | modification
  | change
  | written
  | installation
deriving DecidableEq, Repr

/-- A normalized instant.  Modelled from the spec: `dfdatetime` Filetime
(64-bit tick counter) and PosixTime (seconds since epoch) are collaborator
classes; only the clock domain tag and the raw counter matter here. -/
inductive DateTimeVal where
  | filetime (timestamp : Int)
  | posix (timestamp : Int)
deriving DecidableEq, Repr

/-- `AMCacheFileEventData`: all attributes optional, `None` initialized. -/
structure AMCacheFileEventData where
  company_name : Option ValueData
  file_description : Option ValueData
  file_reference : Option String
  file_size : Option ValueData
  file_version : Option ValueData
  full_path : Option ValueData
  language_code : Option ValueData
  product_name : Option ValueData
  program_identifier : Option ValueData
  sha1 : Option ValueData
deriving DecidableEq, Repr

/-- `AMCacheFileEventData.__init__`: every attribute `None`. -/
def AMCacheFileEventData.init : AMCacheFileEventData :=
  ⟨none, none, none, none, none, none, none, none, none, none⟩

/-- `AMCacheProgramEventData`: all attributes optional, `None` initialized. -/
structure AMCacheProgramEventData where
  entry_type : Option ValueData
  file_paths : Option ValueData
  files : Option ValueData
  language_code : Option ValueData
  msi_package_code : Option ValueData
  msi_product_code : Option ValueData
  name : Option ValueData
  package_code : Option ValueData
  product_code : Option ValueData
  publisher : Option ValueData
  uninstall_key : Option ValueData
  version : Option ValueData
deriving DecidableEq, Repr

/-- `AMCacheProgramEventData.__init__`: every attribute `None`. -/
def AMCacheProgramEventData.init : AMCacheProgramEventData :=
  ⟨none, none, none, none, none, none, none, none, none, none, none, none⟩

/-- `WindowsRegistryEventData` (collaborator container): key path plus the
formatted value-summary string (absent when empty). -/
structure WindowsRegistryEventData where
  key_path : String
  values : Option String
deriving DecidableEq, Repr

/-- The record attached to an event, tagged by its DATA_TYPE shape. -/
inductive EventDataRec where
  | file (d : AMCacheFileEventData)
  | program (d : AMCacheProgramEventData)
  | registry (d : WindowsRegistryEventData)
deriving DecidableEq, Repr

/-- One `DateTimeValuesEvent` paired with its event data, as handed to
`parser_mediator.ProduceEventWithEventData`. -/
structure Event where
  dt : DateTimeVal
  desc : TimeDescription
  data : EventDataRec
deriving DecidableEq, Repr

/-- One emission pushed to the mediator sink, in order: an event with its
data, or an extraction warning. -/
inductive Emission where
  | event (e : Event)
  | warning (msg : String)
deriving DecidableEq, Repr

/-- The observable result of running a piece of the decoder: the ordered
emissions that reached the mediator, and whether an uncaught Python
exception escaped (aborting everything after it). -/
structure Run where
  out : List Emission
  crashed : Bool
deriving DecidableEq, Repr

/-- Sequencing of runs: a crash aborts everything that follows. -/
def Run.seq (a b : Run) : Run :=
  if a.crashed then a else ⟨a.out ++ b.out, b.crashed⟩

/-- The event carried by an emission, if any. -/
def emEvent : Emission → Option Event
  | .event e => some e
  | .warning _ => none

/-- The generic (registry-data) event carried by an emission, if any. -/
def emRegistryEvent : Emission → Option Event
  | .event e =>
    match e.data with
    | .registry _ => some e
    | _ => none
  | .warning _ => none

/-- The events of a run (warnings dropped), in emission order. -/
def eventsOf (r : Run) : List Event :=
  r.out.filterMap emEvent

/-! ## Python string primitives used by the decoder

These model the exact CPython behaviours the source relies on, restricted
to the constants the source uses.  They are structural over the character
lists of Lean strings so that concrete runs reduce in the kernel. -/

/-- ASCII lowering of one character (model of `str.lower` restricted to
ASCII; registry value names in the mapping tables are ASCII). -/
def lowerChar (c : Char) : Char :=
  if 'A' ≤ c && c ≤ 'Z' then Char.ofNat (c.toNat + 32) else c

/-- Model of Python `str.lower()` (ASCII range). -/
def pyLower (s : String) : String :=
  String.mk (s.data.map lowerChar)

/-- Model of Python `sep.join(list)`. -/
def pyJoin (sep : String) : List String → String
  | [] => ""
  | [x] => x
  | x :: xs => x ++ sep ++ pyJoin sep xs

/-- Whether the literal substring `"0000"` occurs in a character list
(model of Python `'0000' in name`). -/
def contains0000 : List Char → Bool
  | '0' :: '0' :: '0' :: '0' :: _ => true
  | _ :: rest => contains0000 rest
  | [] => false

/-- Left-to-right, non-overlapping scan splitting on the literal
separator `"0000"` (model of Python `name.split('0000')`). -/
def split0000Aux : List Char → List Char → List (List Char)
  | '0' :: '0' :: '0' :: '0' :: rest, acc => acc.reverse :: split0000Aux rest []
  | c :: rest, acc => split0000Aux rest (c :: acc)
  | [], acc => [acc.reverse]

/-- Model of Python `name.split('0000')`. -/
def pySplit0000 (s : String) : List String :=
  (split0000Aux s.data []).map String.mk

/-- Whether a string starts with four `'0'` characters (model of
`value_data.startswith('0000')` on a `str`). -/
def begins0000 (s : String) : Bool :=
  match s.data with
  | '0' :: '0' :: '0' :: '0' :: _ => true
  | _ => false

/-- Model of `value_data[4:]` on a `str`. -/
def drop4 (s : String) : String :=
  String.mk (s.data.drop 4)

/-- Python whitespace accepted by `int()` around its argument (ASCII
whitespace; `int()` also strips further Unicode space characters, which
are outside this model). -/
def isPySpace (c : Char) : Bool :=
  c = ' ' || c = '\t' || c = '\n' || c = '\r' || c = '\x0b' || c = '\x0c'

/-- Strip leading and trailing whitespace from a character list. -/
def pyStrip (cs : List Char) : List Char :=
  ((cs.dropWhile isPySpace).reverse.dropWhile isPySpace).reverse

/-- Whether a character is a hexadecimal digit (`0-9a-fA-F`). -/
def isHexDigitB (c : Char) : Bool :=
  (decide ('0' ≤ c) && decide (c ≤ '9')) ||
  (decide ('a' ≤ c) && decide (c ≤ 'f')) ||
  (decide ('A' ≤ c) && decide (c ≤ 'F'))

/-- Numeric value of a hexadecimal digit. -/
def hexDigitVal (c : Char) : Nat :=
  if decide ('0' ≤ c) && decide (c ≤ '9') then c.toNat - '0'.toNat
  else if decide ('a' ≤ c) && decide (c ≤ 'f') then c.toNat - 'a'.toNat + 10
  else c.toNat - 'A'.toNat + 10

/-- Continuation of a hex digit run: `(["_"] digit)*` (single underscores
allowed between digits, as CPython's int literal grammar). -/
def parseHexTail (acc : Nat) : List Char → Option Nat
  | [] => some acc
  | '_' :: c :: rest =>
      if isHexDigitB c then parseHexTail (16 * acc + hexDigitVal c) rest else none
  | ['_'] => none
  | c :: rest =>
      if isHexDigitB c then parseHexTail (16 * acc + hexDigitVal c) rest else none

/-- A hex digit run `digit (["_"] digit)*`. -/
def parseHexBody : List Char → Option Nat
  | c :: rest => if isHexDigitB c then parseHexTail (hexDigitVal c) rest else none
  | [] => none

/-- Digit part after a `0x`/`0X` prefix: `(["_"] digit)+` (a single
underscore may directly follow the prefix). -/
def parseHexAfterPrefix : List Char → Option Nat
  | '_' :: rest => parseHexBody rest
  | cs => parseHexBody cs

/-- Unsigned part of `int(s, 16)`: optional `0x`/`0X` prefix, then digits. -/
def parseHexUnsigned : List Char → Option Nat
  | '0' :: 'x' :: rest => parseHexAfterPrefix rest
  | '0' :: 'X' :: rest => parseHexAfterPrefix rest
  | cs => parseHexBody cs

/-- Model of Python `int(s, 16)`: surrounding whitespace stripped, one
optional sign, optional `0x` prefix, hex digits with single underscores;
anything else raises ValueError, modelled as `none`. -/
def pyIntHex (s : String) : Option Int :=
  match pyStrip s.data with
  | '+' :: rest => (parseHexUnsigned rest).map (fun n => (n : Int))
  | '-' :: rest => (parseHexUnsigned rest).map (fun n => -(n : Int))
  | cs => (parseHexUnsigned cs).map (fun n => (n : Int))

/-- Model of Python `str(x)` on the objects `_GetValueDataAsObject` can
return (`'{0!s}'.format(value_object)`).  Only the `str`, `int` and `None`
cases are reachable where the source applies it; the remaining cases
approximate CPython's repr and are never hit by the decoder. -/
def pyStr : Option ValueData → String
  | none => "None"
  | some (.str s) => s
  | some (.int i) => toString i
  | some (.multiStr l) => "[" ++ pyJoin ", " (l.map (fun s => "'" ++ s ++ "'")) ++ "]"
  | some (.bytes b) => "(" ++ toString b.length ++ " bytes)"

/-! ## Value Decoder (`_GetValueDataAsObject`) -/

/-- The extraction warning `_GetValueDataAsObject` produces on an
IOError/OverflowError.  The Python message also appends the collaborator
exception's text, which is outside the model. -/
def faultMsg (v : RegfValue) : String :=
  "Unable to read data from value: " ++ v.name

/-- `_GetValueDataAsObject`: decode one value by type tag; a fault in a
typed accessor is caught, produces one extraction warning and yields
`None`.  Returns the decoded object (or `none`) and the warnings emitted. -/
def GetValueDataAsObject (v : RegfValue) : Option ValueData × List String :=
  if v.type.isStringLike then
    if v.readFault then (none, [faultMsg v]) else (some (.str v.asString), [])
  else if v.type.isIntegerLike then
    if v.readFault then (none, [faultMsg v]) else (some (.int v.asInteger), [])
  else if v.type = .multiSz then
    if v.readFault then (none, [faultMsg v]) else (some (.multiStr v.asMultiString), [])
  else
    -- `value_data = regf_value.data`: raw bytes, or None when no data.
    (v.data.map ValueData.bytes, [])

/-! ## Display Formatter (`_GetValuesFromKey` and the values string) -/

/-- Rendered name of a value: `regf_value.name or '(default)'`. -/
def renderedName (v : RegfValue) : String :=
  if v.name = "" then "(default)" else v.name

/-- `value_object or []` for the multi-string case. -/
def multiListOf : Option ValueData → List String
  | some (.multiStr l) => l
  | _ => []

/-- The display string of one value with non-null data, with the warnings
its decoding emitted.  (In the opaque branch `len(value_object)` is the
byte count of `regf_value.data`, which is what `_GetValueDataAsObject`
returned there.) -/
def renderValue (v : RegfValue) (bytes : List Nat) : String × List String :=
  let r := GetValueDataAsObject v
  if v.type = .multiSz then
    ("[" ++ pyJoin ", " (multiListOf r.1) ++ "]", r.2)
  else if v.type.isIntegerLike || v.type.isStringLike then
    (pyStr r.1, r.2)
  else
    ("(" ++ toString bytes.length ++ " bytes)", r.2)

/-- Python dict insertion: replace in place if the name exists, else
append (`values_dict[value_name] = value_string`). -/
def pyDictInsert (d : List (String × String)) (n s : String) : List (String × String) :=
  if d.any (fun p => p.1 == n) then
    d.map (fun p => if p.1 == n then (n, s) else p)
  else d ++ [(n, s)]

/-- The loop body of `_GetValuesFromKey` over the key's values. -/
def getValuesGo (skips : List String) :
    List RegfValue → List (String × String) → List String →
      List (String × String) × List String
  | [], dict, ws => (dict, ws)
  | v :: rest, dict, ws =>
    let value_name := renderedName v
    if skips.contains (pyLower value_name) then
      getValuesGo skips rest dict ws
    else
      match v.data with
      | none => getValuesGo skips rest (pyDictInsert dict value_name "(empty)") ws
      | some bytes =>
        let r := renderValue v bytes
        getValuesGo skips rest (pyDictInsert dict value_name r.1) (ws ++ r.2)

/-- `_GetValuesFromKey`: names and display strings of the values of a key
(dict in insertion order), plus the decode warnings emitted. -/
def GetValuesFromKey (k : RegfKey) (names_to_skip : List String) :
    List (String × String) × List String :=
  getValuesGo (names_to_skip.map pyLower) k.values [] []

/-- Boolean character order by code point (Python `<` on str compares by
code point). -/
def charLtB (a b : Char) : Bool := decide (a < b)

/-- Lexicographic order on character lists. -/
def charListLtB : List Char → List Char → Bool
  | [], [] => false
  | [], _ :: _ => true
  | _ :: _, [] => false
  | a :: as, b :: bs =>
    if charLtB a b then true else if charLtB b a then false else charListLtB as bs

/-- Python `<` on strings. -/
def strLtB (a b : String) : Bool := charListLtB a.data b.data

/-- Python `<` on `(name, value)` string pairs (tuple comparison). -/
def pairLtB (a b : String × String) : Bool :=
  strLtB a.1 b.1 || (a.1 == b.1 && strLtB a.2 b.2)

/-- The non-strict comparator corresponding to `pairLtB`; `sorted(...)`
is the stable sort by this order. -/
def pairLeB (a b : String × String) : Bool := !(pairLtB b a)

/-- Model of Python `sorted(values_dict.items())`: a stable sort by tuple
order (insertion sort is stable, hence extensionally `sorted`). -/
def pySortedItems (d : List (String × String)) : List (String × String) :=
  List.insertionSort (fun a b => pairLeB a b = true) d

/-- The `values` string of the default registry event:
`' '.join('{0:s}: {1!s}'.format(n, v) for n, v in sorted(...)) or None`,
together with the decode warnings of `_GetValuesFromKey`. -/
def registryValuesString (k : RegfKey) (names_to_skip : List String) :
    Option String × List String :=
  let r := GetValuesFromKey k names_to_skip
  let s := pyJoin " " ((pySortedItems r.1).map (fun p => p.1 ++ ": " ++ p.2))
  (if s = "" then none else some s, r.2)

/-- The single generic registry event `_ProduceDefaultWindowsRegistryEvent`
produces for a key at a path. -/
def defaultRegistryEvent (k : RegfKey) (key_path : String)
    (names_to_skip : List String) : Event :=
  ⟨.filetime k.lastWrittenTime, .written,
    .registry ⟨key_path, (registryValuesString k names_to_skip).1⟩⟩

/-- `_ProduceDefaultWindowsRegistryEvent`: decode warnings reach the
mediator first (during `_GetValuesFromKey`), then the one event tagged
with the key's last-written time.  This never raises. -/
def ProduceDefaultWindowsRegistryEvent (k : RegfKey) (key_path : String)
    (names_to_skip : List String) : Run :=
  ⟨((registryValuesString k names_to_skip).2.map Emission.warning) ++
    [Emission.event (defaultRegistryEvent k key_path names_to_skip)], false⟩

/-! ## Mapping tables

Python dicts preserve insertion order, so the tables are ordered
association lists in source order.  (The source names carry a leading
underscore, dropped here.) -/

/-- `_FILE_REFERENCE_KEY_VALUES`: value name → attribute name. -/
def FILE_REFERENCE_KEY_VALUES : List (String × String) :=
  [("0", "product_name"),
   ("1", "company_name"),
   ("3", "language_code"),
   ("5", "file_version"),
   ("6", "file_size"),
   ("c", "file_description"),
   ("15", "full_path"),
   ("100", "program_identifier"),
   ("101", "sha1")]

/-- `_PRODUCT_KEY_VALUES`: value name → attribute name. -/
def PRODUCT_KEY_VALUES : List (String × String) :=
  [("0", "name"),
   ("1", "version"),
   ("2", "publisher"),
   ("3", "language_code"),
   ("6", "entry_type"),
   ("7", "uninstall_key"),
   ("d", "file_paths"),
   ("f", "product_code"),
   ("10", "package_code"),
   ("11", "msi_product_code"),
   ("12", "msi_package_code")]

/-! ## Identifier Decoder (file reference name parsing) -/

/-- The `try` block of `_ParseFileReferenceKey` computing
`event_data.file_reference` from the key name; any ValueError/TypeError
(failed hex parse, or tuple unpacking of a split with more or fewer than
two parts) is caught by the bare `except` and leaves the field unset. -/
def fileReferenceFromName (name : String) : Option String :=
  if contains0000 name.data then
    match pySplit0000 name with
    | [sequence_number, mft_entry] =>
      match pyIntHex mft_entry, pyIntHex sequence_number with
      | some e, some s => some (toString e ++ "-" ++ toString s)
      | _, _ => none
    | _ => none
  else
    (pyIntHex name).map (fun n => toString n)

/-! ## Field Mapper for file-reference keys -/

/-- `setattr(event_data, attribute_name, value_data)` for the file record
(attribute names are the mapping-table strings). -/
def setFileAttr (d : AMCacheFileEventData) (attr : String) (v : Option ValueData) :
    AMCacheFileEventData :=
  if attr = "product_name" then { d with product_name := v }
  else if attr = "company_name" then { d with company_name := v }
  else if attr = "language_code" then { d with language_code := v }
  else if attr = "file_version" then { d with file_version := v }
  else if attr = "file_size" then { d with file_size := v }
  else if attr = "file_description" then { d with file_description := v }
  else if attr = "full_path" then { d with full_path := v }
  else if attr = "program_identifier" then { d with program_identifier := v }
  else if attr = "sha1" then { d with sha1 := v }
  else d

/-- The mapping loop of `_ParseFileReferenceKey` over the table entries.
For the sha1 attribute the source calls `value_data.startswith('0000')`;
when the decoded object is not a `str` (in particular `None` after a
caught read fault) that call raises (AttributeError/TypeError), which
nothing catches: the third component reports this crash. -/
def applyFileValuesGo (k : RegfKey) :
    List (String × String) → AMCacheFileEventData → List String →
      AMCacheFileEventData × List String × Bool
  | [], d, ws => (d, ws, false)
  | (value_name, attribute_name) :: rest, d, ws =>
    match getValueByName k value_name with
    | none => applyFileValuesGo k rest d ws
    | some v =>
      let r := GetValueDataAsObject v
      if attribute_name = "sha1" then
        match r.1 with
        | some (.str s) =>
          let s2 := if begins0000 s then drop4 s else s
          applyFileValuesGo k rest
            (setFileAttr d attribute_name (some (.str s2))) (ws ++ r.2)
        | _ => (d, ws ++ r.2, true)
      else
        applyFileValuesGo k rest (setFileAttr d attribute_name r.1) (ws ++ r.2)

/-- The file record after the name decode and the mapping loop, with the
decode warnings and the crash flag. -/
def fileRecordResult (k : RegfKey) : AMCacheFileEventData × List String × Bool :=
  applyFileValuesGo k FILE_REFERENCE_KEY_VALUES
    { AMCacheFileEventData.init with file_reference := fileReferenceFromName k.name } []

/-- The `AMCacheFileEventData` of a file-reference key. -/
def fileRecordOf (k : RegfKey) : AMCacheFileEventData :=
  (fileRecordResult k).1

/-! ## Timestamp Resolver steps -/

/-- One conditional timestamp block: look the value up by name; when
present call `get_data_as_integer()` (uncaught IOError/OverflowError
crashes) and produce one event with the given clock and description. -/
def produceTimeEvent (k : RegfKey) (value_name : String)
    (clock : Int → DateTimeVal) (desc : TimeDescription) (data : EventDataRec) : Run :=
  match getValueByName k value_name with
  | none => ⟨[], false⟩
  | some v =>
    if v.readFault then ⟨[], true⟩
    else ⟨[Emission.event ⟨clock v.asInteger, desc, data⟩], false⟩

/-! ## File Entry Decoder (`_ParseFileReferenceKey`) -/

/-- `_ParseFileReferenceKey`: decode the name into `file_reference`, map
the table values onto one shared record, then emit up to four timestamp
events (entry write `'17'` → modification, creation `'12'`, modification
`'11'` — all Filetime — and compilation `'f'` → change, PosixTime). -/
def ParseFileReferenceKey (k : RegfKey) : Run :=
  let r := fileRecordResult k
  let base : Run := ⟨r.2.1.map Emission.warning, r.2.2⟩
  ((((base.seq
      (produceTimeEvent k "17" DateTimeVal.filetime .modification (.file r.1))).seq
      (produceTimeEvent k "12" DateTimeVal.filetime .creation (.file r.1))).seq
      (produceTimeEvent k "11" DateTimeVal.filetime .modification (.file r.1))).seq
      (produceTimeEvent k "f" DateTimeVal.posix .change (.file r.1)))

/-- Inner loop of `_ParseFileKey` over the file-reference keys of one
volume key. -/
def parseFileRefs : RegfForest → Run
  | .nil => ⟨[], false⟩
  | .cons fk rest => (ParseFileReferenceKey fk).seq (parseFileRefs rest)

/-- Loop of `_ParseFileKey` over the volume keys. -/
def parseVolumes : RegfForest → Run
  | .nil => ⟨[], false⟩
  | .cons vol rest => (parseFileRefs vol.subKeys).seq (parseVolumes rest)

/-- `_ParseFileKey`: every grandchild of `Root\File` is a file-reference
key. -/
def ParseFileKey (k : RegfKey) : Run :=
  parseVolumes k.subKeys

/-! ## Program Entry Decoder (`_ParseProgramKey`) -/

/-- `setattr(event_data, attribute_name, value_data)` for the program
record. -/
def setProgramAttr (d : AMCacheProgramEventData) (attr : String)
    (v : Option ValueData) : AMCacheProgramEventData :=
  if attr = "name" then { d with name := v }
  else if attr = "version" then { d with version := v }
  else if attr = "publisher" then { d with publisher := v }
  else if attr = "language_code" then { d with language_code := v }
  else if attr = "entry_type" then { d with entry_type := v }
  else if attr = "uninstall_key" then { d with uninstall_key := v }
  else if attr = "file_paths" then { d with file_paths := v }
  else if attr = "product_code" then { d with product_code := v }
  else if attr = "package_code" then { d with package_code := v }
  else if attr = "msi_product_code" then { d with msi_product_code := v }
  else if attr = "msi_package_code" then { d with msi_package_code := v }
  else d

/-- The mapping loop of `_ParseProgramKey` (no special-cased attribute,
hence no crash path; a caught read fault warns and assigns `None`). -/
def applyProgramValuesGo (k : RegfKey) :
    List (String × String) → AMCacheProgramEventData → List String →
      AMCacheProgramEventData × List String
  | [], d, ws => (d, ws)
  | (value_name, attribute_name) :: rest, d, ws =>
    match getValueByName k value_name with
    | none => applyProgramValuesGo k rest d ws
    | some v =>
      let r := GetValueDataAsObject v
      applyProgramValuesGo k rest (setProgramAttr d attribute_name r.1) (ws ++ r.2)

/-- The program record of a program key, with its decode warnings. -/
def programRecordResult (k : RegfKey) : AMCacheProgramEventData × List String :=
  applyProgramValuesGo k PRODUCT_KEY_VALUES AMCacheProgramEventData.init []

/-- The `AMCacheProgramEventData` of a program key. -/
def programRecordOf (k : RegfKey) : AMCacheProgramEventData :=
  (programRecordResult k).1

/-- `_ParseProgramKey`: map the table values onto the record, then emit
exactly one installation event when the `'a'` value is present (PosixTime;
its uncaught read fault crashes). -/
def ParseProgramKey (k : RegfKey) : Run :=
  let r := programRecordResult k
  (⟨r.2.map Emission.warning, false⟩ : Run).seq
    (produceTimeEvent k "a" DateTimeVal.posix .installation (.program r.1))

/-- `_ParseProgramsKey`: every child of `Root\Programs` is a program key. -/
def parseProgramList : RegfForest → Run
  | .nil => ⟨[], false⟩
  | .cons pk rest => (ParseProgramKey pk).seq (parseProgramList rest)

def ParseProgramsKey (k : RegfKey) : Run :=
  parseProgramList k.subKeys

/-! ## Tree Walker -/

mutual
/-- `_ParseSubKey`: emit the generic event for this key (path = backslash
join of the segment stack, which already ends in this key's name), then
recurse depth-first into the sub keys. -/
def ParseSubKey : RegfKey → List String → Run
  | k@(.node _ _ _ subs), key_path_segments =>
    (ProduceDefaultWindowsRegistryEvent k (pyJoin "\\" key_path_segments) []).seq
      (parseSubKeyForest subs key_path_segments)

/-- The loop of `_ParseSubKey` over the sub keys: push the child name,
recurse, pop. -/
def parseSubKeyForest : RegfForest → List String → Run
  | .nil, _ => ⟨[], false⟩
  | .cons sub rest, key_path_segments =>
    (ParseSubKey sub (key_path_segments ++ [sub.name])).seq
      (parseSubKeyForest rest key_path_segments)
end

/-- The specialized handling `_ParseRootKey` dispatches for one child of
`Root`: `File` and `Programs` by exact name, nothing for other names. -/
def specializedRun (sub : RegfKey) : Run :=
  if sub.name = "File" then ParseFileKey sub
  else if sub.name = "Programs" then ParseProgramsKey sub
  else ⟨[], false⟩

/-- The loop of `_ParseRootKey` over the children of `Root`: generic
traversal of the child's subtree first, then the specialized `File` /
`Programs` handling of that child. -/
def parseRootChildren : RegfForest → Run
  | .nil => ⟨[], false⟩
  | .cons sub rest =>
    ((ParseSubKey sub (["", "Root"] ++ [sub.name])).seq (specializedRun sub)).seq
      (parseRootChildren rest)

/-- `_ParseRootKey`: generic event for `Root` at the literal path
`"\Root"`, then the children. -/
def ParseRootKey (root_key : RegfKey) : Run :=
  (ProduceDefaultWindowsRegistryEvent root_key "\\Root" []).seq
    (parseRootChildren root_key.subKeys)

/-! ## `ParseFileObject` -/

/-- The opened artifact as the core sees it: opening may fail with
IOError (silently ignored), else the hive either has a key at the literal
path `"Root"` or not. -/
inductive HiveInput where
  | openError
  | file (rootKey : Option RegfKey)

/-- `ParseFileObject`: on open failure return silently; with no `Root`
key produce exactly one extraction warning; else walk the tree. -/
def ParseFileObject : HiveInput → Run
  | .openError => ⟨[], false⟩
  | .file none => ⟨[Emission.warning "Root key missing from AMCache.hve file."], false⟩
  | .file (some root_key) => ParseRootKey root_key

/-! ## Derived tree notions used to state the claims -/

mutual
/-- The keys of a tree in depth-first pre-order, each paired with the
backslash-joined path of the segment stack (which ends in its own name). -/
def preorderAux : RegfKey → List String → List (String × RegfKey)
  | k@(.node _ _ _ subs), segs => (pyJoin "\\" segs, k) :: preorderForest subs segs

def preorderForest : RegfForest → List String → List (String × RegfKey)
  | .nil, _ => []
  | .cons k rest, segs => preorderAux k (segs ++ [k.name]) ++ preorderForest rest segs
end

/-- Pre-order key/path sequence of a whole artifact tree, with the stack
initialized to the empty segment followed by `"Root"`. -/
def preorderKeys (root_key : RegfKey) : List (String × RegfKey) :=
  preorderAux root_key ["", "Root"]

mutual
/-- All keys of a tree (the key itself and every descendant). -/
def RegfKey.allKeys : RegfKey → List RegfKey
  | k@(.node _ _ _ subs) => k :: RegfForest.allKeys subs

def RegfForest.allKeys : RegfForest → List RegfKey
  | .nil => []
  | .cons k rest => RegfKey.allKeys k ++ RegfForest.allKeys rest
end

/-- All keys the traversal of an opened artifact can visit. -/
def hiveKeys : HiveInput → List RegfKey
  | .openError => []
  | .file none => []
  | .file (some root_key) => root_key.allKeys

/-- The generic (registry-data) events of a run, in emission order. -/
def registryEventsOf (r : Run) : List Event :=
  r.out.filterMap emRegistryEvent

/-- A value whose reads cannot raise and that, when it is the sha1 source
value (named `"101"`), decodes to text: processing such a value can
neither warn nor crash. -/
def valueSafe (v : RegfValue) : Bool :=
  !v.readFault && (v.name != "101" || v.type.isStringLike)

/-- Every value of every key of the tree is safe (no decode faults; sha1
values decode to text), so the specialized decoding cannot raise. -/
def treeSafe (k : RegfKey) : Prop :=
  ∀ j ∈ k.allKeys, ∀ v ∈ j.values, valueSafe v = true

instance (k : RegfKey) : Decidable (treeSafe k) := by
  unfold treeSafe; infer_instance

/-! ## Definitions taken from the claims' words (for comparison with the
source embedding) -/

/-- Claim C2's reading of the file-reference decode: split the name on the
FIRST occurrence of `"0000"` into a sequence-hex part and an entry-hex
part.  (The source instead splits on every occurrence and fails when that
yields more than two parts.) -/
def fileReferenceFromNameClaim (name : String) : Option String :=
  if contains0000 name.data then
    match pySplit0000 name with
    | seqPart :: rest =>
      let entryPart := pyJoin "0000" rest
      match pyIntHex entryPart, pyIntHex seqPart with
      | some e, some s => some (toString e ++ "-" ++ toString s)
      | _, _ => none
    | [] => none
  else
    (pyIntHex name).map (fun n => toString n)

/-- The amended reading of claim C2: split on `"0000"` (every occurrence,
left to right, non-overlapping); only a split into exactly two parts that
both parse as hexadecimal yields a reference; a name without the substring
is parsed as one hexadecimal number; every failure leaves the reference
unset. -/
def fileReferenceFromNameAmended (name : String) : Option String :=
  let parts := pySplit0000 name
  if parts.length = 1 then
    (pyIntHex name).map (fun n => toString n)
  else
    match parts with
    | [seqPart, entryPart] =>
      match pyIntHex entryPart, pyIntHex seqPart with
      | some e, some s => some (toString e ++ "-" ++ toString s)
      | _, _ => none
    | _ => none

/-- The four conditional timestamped events claim C5 describes for one
file-reference key, sharing one record: entry write time `'17'`
(tick counter, modification), file creation time `'12'` (tick counter,
creation), file modification time `'11'` (tick counter, modification),
compilation time `'f'` (epoch seconds, change); each present if and only
if its raw value is present. -/
def specFileTimeEvents (k : RegfKey) (d : AMCacheFileEventData) : List Event :=
  (match getValueByName k "17" with
   | some v => [⟨.filetime v.asInteger, .modification, .file d⟩]
   | none => []) ++
  (match getValueByName k "12" with
   | some v => [⟨.filetime v.asInteger, .creation, .file d⟩]
   | none => []) ++
  (match getValueByName k "11" with
   | some v => [⟨.filetime v.asInteger, .modification, .file d⟩]
   | none => []) ++
  (match getValueByName k "f" with
   | some v => [⟨.posix v.asInteger, .change, .file d⟩]
   | none => [])

/-- The event list claim C6 describes for one program key: exactly one
installation event (epoch seconds) if and only if the `'a'` value is
present. -/
def specProgramEvents (k : RegfKey) (d : AMCacheProgramEventData) : List Event :=
  match getValueByName k "a" with
  | some v => [⟨.posix v.asInteger, .installation, .program d⟩]
  | none => []

/-- The rendering rules of claim C7 for one value (fault-free reads):
`"(empty)"` for a null payload, `"[a, b, c]"` for multi-string (`"[]"`
when empty), the decoded scalar's text form for string/link/integer
types, `"(N bytes)"` otherwise. -/
def claimRenderValue (v : RegfValue) : String :=
  match v.data with
  | none => "(empty)"
  | some bytes =>
    if v.type = .multiSz then "[" ++ pyJoin ", " v.asMultiString ++ "]"
    else if v.type.isStringLike then v.asString
    else if v.type.isIntegerLike then toString v.asInteger
    else "(" ++ toString bytes.length ++ " bytes)"

/-- The non-strict name-only comparator of claim C7 ("sorted lexically by
value name"). -/
def nameLeB (a b : String × String) : Bool := !(strLtB b.1 a.1)

/-- The value summary of claim C7: every value not on the skip list,
rendered by `claimRenderValue` under its rendered name (`"(default)"`
when the name is empty), entries `"name: value"` joined space-separated
and sorted lexically by value name; an empty result is absent. -/
def claimValueSummary (k : RegfKey) (names_to_skip : List String) : Option String :=
  let skips := names_to_skip.map pyLower
  let entries := k.values.filterMap (fun v =>
    let n := renderedName v
    if skips.contains (pyLower n) then none else some (n, claimRenderValue v))
  let sortedEntries := List.insertionSort (fun a b => nameLeB a b = true) entries
  if sortedEntries = [] then none
  else some (pyJoin " " (sortedEntries.map (fun p => p.1 ++ ": " ++ p.2)))

/-! ## Concrete artifacts used for counterexamples and witnesses -/

/-- A plain readable string value. -/
def mkStrValue (n s : String) : RegfValue :=
  ⟨n, .sz, some [0], s, 0, [], false⟩

/-- A readable integer (QWORD) value. -/
def mkIntValue (n : String) (i : Int) : RegfValue :=
  ⟨n, .qword, some [0], "", i, [], false⟩

/-- A readable integer (DWORD) value. -/
def mkDwordValue (n : String) (i : Int) : RegfValue :=
  ⟨n, .dword, some [0], "", i, [], false⟩

/-- A string value whose typed accessors raise (I/O fault). -/
def mkFaultValue (n : String) : RegfValue :=
  ⟨n, .sz, some [0], "", 0, [], true⟩

/-- An integer value whose typed accessors raise (I/O fault). -/
def mkFaultIntValue (n : String) : RegfValue :=
  ⟨n, .qword, some [0], "", 0, [], true⟩

/-- C1: a file-reference key whose sha1 value (`'101'`) suffers an I/O
fault on read, nested at `Root\File\vol\1a`. -/
def c1FileRefKey : RegfKey := .node "1a" 10 [mkFaultValue "101"] .nil

def c1Tree : RegfKey :=
  .node "Root" 7 []
    (.cons (.node "File" 8 [] (.cons (.node "vol" 9 [] (.cons c1FileRefKey .nil)) .nil))
      (.cons (.node "Programs" 6 [] (.cons (.node "{guid}" 5 [mkStrValue "0" "app"] .nil) .nil))
        .nil))

/-- C2: a file-reference key whose name holds two occurrences of "0000". -/
def c2Key : RegfKey := .node "a0000b0000c" 0 [] .nil

/-- C3 witness: sha1 value carrying four leading zero characters. -/
def c3Key : RegfKey :=
  .node "1a" 10
    [mkStrValue "101" "0000aaaabbbbccccddddeeeeffff0000111122223333"] .nil

/-- C3 witness, second half: sha1 text without the zero prefix. -/
def c3Key2 : RegfKey := .node "1a" 10 [mkStrValue "101" "ab01"] .nil

/-- C5 counterexample: the entry-write-time value (`'17'`) faults, the
creation-time value (`'12'`) is present and readable. -/
def c5BadKey : RegfKey := .node "1a" 10 [mkFaultIntValue "17", mkIntValue "12" 42] .nil

/-- C5 witness: two of the four timestamps present, plus mapped values. -/
def c5wKey : RegfKey :=
  .node "f0000c" 10
    [mkStrValue "0" "Product", mkIntValue "17" 5551, mkIntValue "11" 7777,
     mkStrValue "101" "0000ff"] .nil

/-- C6 counterexample: the installation-time value (`'a'`) faults. -/
def c6BadKey : RegfKey := .node "{guid}" 5 [mkStrValue "0" "app", mkFaultIntValue "a"] .nil

/-- C6 witness: a program key with a name and an installation time. -/
def c6wKey : RegfKey := .node "{guid}" 5 [mkStrValue "0" "app", mkDwordValue "a" 1234] .nil

/-- C7 witness: values arriving in non-lexical order, with a default
value, an empty value, a multi-string and a binary payload. -/
def c7wKey : RegfKey :=
  .node "k" 1
    [mkStrValue "z" "last", ⟨"m", .multiSz, some [0], "", 0, ["a", "b"], false⟩,
     ⟨"bin", .binary, some [9, 9, 9], "", 0, [], false⟩,
     ⟨"e", .sz, none, "", 0, [], false⟩, ⟨"", .dword, some [0], "", 7, [], false⟩] .nil

/-- C9 counterexample: the `File` subtree crashes (faulted `'17'`), the
later `Other` child is never reached. -/
def c9BadTree : RegfKey :=
  .node "Root" 7 []
    (.cons
      (.node "File" 8 []
        (.cons (.node "vol" 9 [] (.cons (.node "1a" 10 [mkFaultIntValue "17"] .nil) .nil))
          .nil))
      (.cons (.node "Other" 4 [] .nil) .nil))

/-- C9/C10 witness: a safe tree with `File` and `Programs` subtrees. -/
def c9wTree : RegfKey :=
  .node "Root" 66 [mkStrValue "b" "two", mkStrValue "a" "one"]
    (.cons
      (.node "File" 77 []
        (.cons (.node "vol" 88 []
            (.cons (.node "12345" 99 [mkStrValue "0" "prod", mkIntValue "17" 5551] .nil)
              .nil))
          .nil))
      (.cons
        (.node "Programs" 55 []
          (.cons (.node "{guid}" 44 [mkStrValue "0" "app", mkDwordValue "a" 1234] .nil)
            .nil))
        .nil))

/-- C10 witness: a one-key tree and its generic event. -/
def c10Tree : RegfKey := .node "Root" 31337 [mkStrValue "x" "y"] .nil

def c10Event : Event := defaultRegistryEvent c10Tree "\\Root" []

/-! ## Helper lemmas -/

theorem Run.seq_of_not_crashed {a : Run} (b : Run) (h : a.crashed = false) :
    a.seq b = ⟨a.out ++ b.out, b.crashed⟩ := by
  unfold Run.seq
  simp [h]

theorem eventsOf_eq (r : Run) : eventsOf r = r.out.filterMap emEvent := rfl

@[simp] theorem filterMap_emEvent_warnings (ws : List String) :
    (ws.map Emission.warning).filterMap emEvent = [] := by
  induction ws with
  | nil => rfl
  | cons w ws ih => simp [emEvent, ih]

theorem setFileAttr_file_reference (d : AMCacheFileEventData) (attr : String)
    (v : Option ValueData) : (setFileAttr d attr v).file_reference = d.file_reference := by
  unfold setFileAttr
  split_ifs <;> rfl

theorem setFileAttr_sha1_of_ne (d : AMCacheFileEventData) (attr : String)
    (v : Option ValueData) (h : attr ≠ "sha1") :
    (setFileAttr d attr v).sha1 = d.sha1 := by
  unfold setFileAttr
  split_ifs <;> simp_all

theorem applyFileValuesGo_file_reference (k : RegfKey) :
    ∀ (entries : List (String × String)) (d : AMCacheFileEventData) (ws : List String),
      ((applyFileValuesGo k entries d ws).1).file_reference = d.file_reference := by
  intro entries
  induction entries with
  | nil => intro d ws; rfl
  | cons e rest ih =>
    intro d ws
    obtain ⟨value_name, attribute_name⟩ := e
    unfold applyFileValuesGo
    cases hv : getValueByName k value_name with
    | none => exact ih d ws
    | some v =>
      simp only
      split
      · split
        · rw [ih, setFileAttr_file_reference]
        · rfl
      · rw [ih, setFileAttr_file_reference]

theorem applyFileValuesGo_noCrash_of_noSha1 (k : RegfKey) :
    ∀ (entries : List (String × String)), (∀ e ∈ entries, e.2 ≠ "sha1") →
      ∀ (d : AMCacheFileEventData) (ws : List String),
        (applyFileValuesGo k entries d ws).2.2 = false := by
  intro entries
  induction entries with
  | nil => intro _ d ws; rfl
  | cons e rest ih =>
    intro h d ws
    obtain ⟨value_name, attribute_name⟩ := e
    have hne : attribute_name ≠ "sha1" := h _ (List.mem_cons_self _ _)
    have hrest : ∀ e ∈ rest, e.2 ≠ "sha1" := fun e he => h e (List.mem_cons_of_mem _ he)
    unfold applyFileValuesGo
    cases hv : getValueByName k value_name with
    | none => exact ih hrest d ws
    | some v =>
      simp only [if_neg hne]
      exact ih hrest _ _

theorem applyFileValuesGo_sha1_of_noSha1 (k : RegfKey) :
    ∀ (entries : List (String × String)), (∀ e ∈ entries, e.2 ≠ "sha1") →
      ∀ (d : AMCacheFileEventData) (ws : List String),
        ((applyFileValuesGo k entries d ws).1).sha1 = d.sha1 := by
  intro entries
  induction entries with
  | nil => intro _ d ws; rfl
  | cons e rest ih =>
    intro h d ws
    obtain ⟨value_name, attribute_name⟩ := e
    have hne : attribute_name ≠ "sha1" := h _ (List.mem_cons_self _ _)
    have hrest : ∀ e ∈ rest, e.2 ≠ "sha1" := fun e he => h e (List.mem_cons_of_mem _ he)
    unfold applyFileValuesGo
    cases hv : getValueByName k value_name with
    | none => exact ih hrest d ws
    | some v =>
      simp only [if_neg hne]
      rw [ih hrest, setFileAttr_sha1_of_ne _ _ _ hne]

/-- Splitting the mapping fold at a list append. -/
theorem applyFileValuesGo_append (k : RegfKey) :
    ∀ (l1 l2 : List (String × String)) (d : AMCacheFileEventData) (ws : List String),
      applyFileValuesGo k (l1 ++ l2) d ws =
        (match applyFileValuesGo k l1 d ws with
         | (d1, ws1, true) => (d1, ws1, true)
         | (d1, ws1, false) => applyFileValuesGo k l2 d1 ws1) := by
  intro l1
  induction l1 with
  | nil =>
    intro l2 d ws
    simp only [List.nil_append]
    rfl
  | cons e rest ih =>
    intro l2 d ws
    obtain ⟨value_name, attribute_name⟩ := e
    simp only [List.cons_append]
    cases hv : getValueByName k value_name with
    | none =>
      simp only [applyFileValuesGo, hv]
      exact ih l2 d ws
    | some v =>
      by_cases ha : attribute_name = "sha1"
      · rcases hr : (GetValueDataAsObject v).1 with _ | vd
        · simp only [applyFileValuesGo, hv, if_pos ha, hr]
        · cases vd with
          | str s =>
            simp only [applyFileValuesGo, hv, if_pos ha, hr]
            exact ih l2 _ _
          | int i => simp only [applyFileValuesGo, hv, if_pos ha, hr]
          | multiStr l => simp only [applyFileValuesGo, hv, if_pos ha, hr]
          | bytes b => simp only [applyFileValuesGo, hv, if_pos ha, hr]
      · simp only [applyFileValuesGo, hv, if_neg ha]
        exact ih l2 _ _

/-- The first eight file mapping entries, none of which is the sha1 one. -/
theorem FILE_REFERENCE_KEY_VALUES_split :
    FILE_REFERENCE_KEY_VALUES =
      [("0", "product_name"), ("1", "company_name"), ("3", "language_code"),
       ("5", "file_version"), ("6", "file_size"), ("c", "file_description"),
       ("15", "full_path"), ("100", "program_identifier")] ++ [("101", "sha1")] := rfl

/-- A safe sha1 value decodes to its text. -/
theorem GetValueDataAsObject_str (v : RegfValue) (hf : v.readFault = false)
    (ht : v.type.isStringLike = true) :
    GetValueDataAsObject v = (some (.str v.asString), []) := by
  unfold GetValueDataAsObject
  simp [ht, hf]

theorem setFileAttr_sha1 (d : AMCacheFileEventData) (v : Option ValueData) :
    (setFileAttr d "sha1" v).sha1 = v := by
  simp [setFileAttr]

/-- When the sha1 source value is absent or decodes to text, the mapping
loop of `_ParseFileReferenceKey` does not raise, and the sha1 attribute is
the (possibly stripped) decoded text. -/
theorem fileRecordResult_of_sha1_safe (k : RegfKey)
    (hsha : ∀ v, getValueByName k "101" = some v →
      v.readFault = false ∧ v.type.isStringLike = true) :
    (fileRecordResult k).2.2 = false ∧
      (fileRecordOf k).sha1 =
        (match getValueByName k "101" with
         | none => none
         | some v =>
           some (.str (if begins0000 v.asString then drop4 v.asString else v.asString))) := by
  have hpre : ∀ e ∈ ([("0", "product_name"), ("1", "company_name"), ("3", "language_code"),
      ("5", "file_version"), ("6", "file_size"), ("c", "file_description"),
      ("15", "full_path"), ("100", "program_identifier")] : List (String × String)),
      e.2 ≠ "sha1" := by decide
  unfold fileRecordOf fileRecordResult
  rw [FILE_REFERENCE_KEY_VALUES_split, applyFileValuesGo_append]
  have hcrash := applyFileValuesGo_noCrash_of_noSha1 k _ hpre
    { AMCacheFileEventData.init with file_reference := fileReferenceFromName k.name } []
  have hsh := applyFileValuesGo_sha1_of_noSha1 k _ hpre
    { AMCacheFileEventData.init with file_reference := fileReferenceFromName k.name } []
  rcases hgo : applyFileValuesGo k _
      { AMCacheFileEventData.init with file_reference := fileReferenceFromName k.name } []
    with ⟨d1, ws1, crashed1⟩
  rw [hgo] at hcrash hsh
  simp only at hcrash hsh
  subst hcrash
  simp only
  cases hv : getValueByName k "101" with
  | none =>
    simp only [applyFileValuesGo, hv]
    exact ⟨trivial, hsh⟩
  | some v =>
    obtain ⟨hf, ht⟩ := hsha v hv
    simp only [applyFileValuesGo, hv, GetValueDataAsObject_str v hf ht]
    simp [setFileAttr_sha1, applyFileValuesGo]

/-! ## Claim C1 -/

/-- Claim C1 (code bug): the claim states that every I/O or overflow
fault raised while reading a single registry value is caught locally and
that no exception propagates out of the whole traversal.  The code
contradicts this (and the documented `None` return of
`_GetValueDataAsObject`): on `c1Tree`, the read fault at the sha1 value
`'101'` is indeed caught — the warning is emitted — but the decoder then
calls `value_data.startswith('0000')` on the resulting `None`, raising an
uncaught `AttributeError` that aborts the whole traversal; the later
`Programs` sibling is never processed (its key-visit and installation
events are missing from the output). -/
theorem c1_value_fault_crashes :
    (ParseFileObject (.file (some c1Tree))).crashed = true ∧
      Emission.warning (faultMsg (mkFaultValue "101")) ∈
        (ParseFileObject (.file (some c1Tree))).out ∧
      (eventsOf (ParseFileObject (.file (some c1Tree)))).all
        (fun e => !(e.desc == .installation)) = true := by
  refine ⟨by decide, by decide, by decide⟩

/-! ## Claim C2 -/

/-- Claim C2 counterexample: the claim says a name containing `"0000"` is
split on the FIRST occurrence of the substring and the reference is built
from the two parts; on the name `"a0000b0000c"` that reading yields
`"11534348-10"` (entry `0xb0000c`, sequence `0xa`), but the code's
`split('0000')` yields three parts, the tuple unpacking raises
`ValueError`, and the reference is left unset. -/
theorem c2_split_counterexample :
    fileReferenceFromName "a0000b0000c" = none ∧
      fileReferenceFromNameClaim "a0000b0000c" = some "11534348-10" ∧
      (fileRecordOf c2Key).file_reference = none := by
  refine ⟨by decide, by decide, by decide⟩

theorem contains0000_false_split :
    ∀ cs acc : List Char, contains0000 cs = false →
      split0000Aux cs acc = [acc.reverse ++ cs] := by
  intro cs acc
  induction cs, acc using split0000Aux.induct with
  | case1 rest acc ih =>
    intro hc
    rw [contains0000] at hc
    simp at hc
  | case2 c rest acc hpat ih =>
    intro hc
    rw [contains0000.eq_2 c rest hpat] at hc
    rw [split0000Aux.eq_2 acc c rest hpat, ih hc]
    simp
  | case3 acc =>
    intro _
    rw [split0000Aux]
    simp

theorem split0000Aux_length_pos :
    ∀ cs acc : List Char, 1 ≤ (split0000Aux cs acc).length := by
  intro cs acc
  induction cs, acc using split0000Aux.induct with
  | case1 rest acc ih =>
    rw [split0000Aux]
    simp
  | case2 c rest acc hpat ih =>
    rw [split0000Aux.eq_2 acc c rest hpat]
    exact ih
  | case3 acc =>
    rw [split0000Aux]
    simp

theorem contains0000_true_split_length :
    ∀ cs acc : List Char, contains0000 cs = true →
      2 ≤ (split0000Aux cs acc).length := by
  intro cs acc
  induction cs, acc using split0000Aux.induct with
  | case1 rest acc ih =>
    intro _
    rw [split0000Aux]
    have := split0000Aux_length_pos rest []
    simp
    omega
  | case2 c rest acc hpat ih =>
    intro hc
    rw [contains0000.eq_2 c rest hpat] at hc
    rw [split0000Aux.eq_2 acc c rest hpat]
    exact ih hc
  | case3 acc =>
    intro hc
    rw [contains0000] at hc
    exact absurd hc (by simp)

/-- The split has exactly one part exactly when the separator does not
occur. -/
theorem pySplit0000_length_one_iff (s : String) :
    (pySplit0000 s).length = 1 ↔ contains0000 s.data = false := by
  unfold pySplit0000
  rw [List.length_map]
  constructor
  · intro h1
    by_contra hc
    rw [Bool.not_eq_false] at hc
    have := contains0000_true_split_length s.data [] hc
    omega
  · intro hc
    rw [contains0000_false_split s.data [] hc]
    rfl

/-- Claim C2 (amended): for every file-reference key name, the reference
is computed by splitting on every occurrence of `"0000"`: a split into
exactly two hexadecimal parts gives `"{entry}-{sequence}"` in decimal, a
name without the substring is parsed as one hexadecimal number, and any
other shape or parse failure leaves the reference unset, silently.  The
record's `file_reference` attribute is exactly this decode of the key
name. -/
theorem c2_file_reference_amended :
    (∀ name, fileReferenceFromName name = fileReferenceFromNameAmended name) ∧
      (∀ k, (fileRecordOf k).file_reference = fileReferenceFromName k.name) := by
  constructor
  · intro name
    unfold fileReferenceFromName fileReferenceFromNameAmended
    by_cases hc : contains0000 name.data = true
    · have hlen : ¬ (pySplit0000 name).length = 1 := by
        rw [pySplit0000_length_one_iff]
        simp [hc]

      rcases hp : pySplit0000 name with _ | ⟨a, _ | ⟨b, _ | ⟨c, rest⟩⟩⟩ <;>
        simp_all
    · have hlen : (pySplit0000 name).length = 1 :=
        (pySplit0000_length_one_iff name).2 (by simpa using hc)
      simp [hc, hlen]
  · intro k
    unfold fileRecordOf fileRecordResult
    rw [applyFileValuesGo_file_reference]

/-! ## Claim C4 -/

/-- Claim C4 counterexample: the claim asserts the file-entry mapping
table has exactly ten entries and the program mapping table exactly
twelve; the source tables have nine and eleven. -/
theorem c4_table_sizes_counterexample :
    ¬ (FILE_REFERENCE_KEY_VALUES.length = 10 ∧ PRODUCT_KEY_VALUES.length = 12) := by
  decide

/-- Claim C4 (amended): the file-entry mapping table maps exactly nine
value names (including `"0"` to product_name and `"101"` to sha1) and the
program mapping table maps exactly eleven value names (including `"0"` to
name and `"f"` to product_code). -/
theorem c4_table_sizes_amended :
    FILE_REFERENCE_KEY_VALUES.length = 9 ∧
      ("0", "product_name") ∈ FILE_REFERENCE_KEY_VALUES ∧
      ("101", "sha1") ∈ FILE_REFERENCE_KEY_VALUES ∧
      PRODUCT_KEY_VALUES.length = 11 ∧
      ("0", "name") ∈ PRODUCT_KEY_VALUES ∧
      ("f", "product_code") ∈ PRODUCT_KEY_VALUES := by
  decide

/-! ## Claim C8 -/

/-- Claim C8 counterexample: with no `"Root"` key the parser emits exactly
one extraction warning, but its text ends in a period —
`"Root key missing from AMCache.hve file."` — not the claim's quoted
`"Root key missing from AMCache.hve file"`. -/
theorem c8_warning_text_counterexample :
    (ParseFileObject (.file none)).out =
      [Emission.warning "Root key missing from AMCache.hve file."] ∧
      (ParseFileObject (.file none)).out ≠
        [Emission.warning "Root key missing from AMCache.hve file"] := by
  refine ⟨rfl, by decide⟩

/-- Claim C8 (amended): if the opened hive has no key at the literal path
`"Root"`, the parser emits exactly one extraction warning, whose text is
`"Root key missing from AMCache.hve file."` (with a trailing period),
produces zero events, and does not propagate any failure. -/
theorem c8_missing_root_amended :
    ParseFileObject (.file none) =
      ⟨[Emission.warning "Root key missing from AMCache.hve file."], false⟩ ∧
      eventsOf (ParseFileObject (.file none)) = [] := by
  refine ⟨rfl, rfl⟩

/-! ## Claim C3 -/

/-- A decode that yields text forces a fault-free string-typed value with
that text. -/
theorem GetValueDataAsObject_str_inv (v : RegfValue) (s : String) (ws : List String)
    (h : GetValueDataAsObject v = (some (.str s), ws)) :
    v.readFault = false ∧ v.type.isStringLike = true ∧ v.asString = s := by
  unfold GetValueDataAsObject at h
  by_cases h1 : v.type.isStringLike = true
  · rw [if_pos h1] at h
    by_cases h2 : v.readFault = true
    · rw [if_pos h2] at h
      simp at h
    · rw [if_neg h2] at h
      simp only [Prod.mk.injEq, Option.some.injEq, ValueData.str.injEq] at h
      exact ⟨by simpa using h2, h1, h.1⟩
  · rw [if_neg h1] at h
    by_cases h2 : v.type.isIntegerLike = true
    · rw [if_pos h2] at h
      split at h <;> simp at h
    · rw [if_neg h2] at h
      by_cases h3 : v.type = .multiSz
      · rw [if_pos h3] at h
        split at h <;> simp at h
      · rw [if_neg h3] at h
        cases hd : v.data <;> rw [hd] at h <;> simp at h

/-- Claim C3: whenever the mapped sha1 value (`'101'`) is present and its
decoded text begins with four literal zero characters, exactly those four
leading characters are stripped before the sha1 field is assigned; a
decoded sha1 text without that prefix is stored unchanged. -/
theorem c3_sha1_strip (k : RegfKey) (v : RegfValue) (s : String) (ws : List String)
    (hv : getValueByName k "101" = some v)
    (hd : GetValueDataAsObject v = (some (.str s), ws)) :
    (fileRecordOf k).sha1 = some (.str (if begins0000 s then drop4 s else s)) := by
  obtain ⟨hf, ht, hs⟩ := GetValueDataAsObject_str_inv v s ws hd
  have h2 := fileRecordResult_of_sha1_safe k (fun v' hv' => by
    rw [hv] at hv'
    injection hv' with h'
    subst h'
    exact ⟨hf, ht⟩)
  rw [h2.2]
  simp only [hv, hs]

/-- Claim C3 witness: on `c3Key` the decoded sha1 text
`"0000aaaabbbbccccddddeeeeffff0000111122223333"` is stored with exactly
the four leading zeros stripped, and on `c3Key2` the text `"ab01"` is
stored unchanged. -/
theorem c3_sha1_strip_witness :
    (fileRecordOf c3Key).sha1 =
      some (.str "aaaabbbbccccddddeeeeffff0000111122223333") ∧
      (fileRecordOf c3Key2).sha1 = some (.str "ab01") := by
  constructor
  · exact (c3_sha1_strip c3Key
      (mkStrValue "101" "0000aaaabbbbccccddddeeeeffff0000111122223333")
      "0000aaaabbbbccccddddeeeeffff0000111122223333" [] (by decide) (by decide)).trans
      (by decide)
  · exact (c3_sha1_strip c3Key2 (mkStrValue "101" "ab01") "ab01" []
      (by decide) (by decide)).trans (by decide)

/-! ## Claims C5 and C6 -/

/-- A timestamp block with a fault-free source value never raises and
emits exactly per presence. -/
theorem produceTimeEvent_ok (k : RegfKey) (n : String) (clock : Int → DateTimeVal)
    (desc : TimeDescription) (dat : EventDataRec)
    (h : ∀ v, getValueByName k n = some v → v.readFault = false) :
    produceTimeEvent k n clock desc dat =
      ⟨(match getValueByName k n with
        | some v => [Emission.event ⟨clock v.asInteger, desc, dat⟩]
        | none => []), false⟩ := by
  unfold produceTimeEvent
  cases hv : getValueByName k n with
  | none => rfl
  | some v => simp [h v hv]

/-- Claim C5 counterexample: on `c5BadKey` the creation-time value
(`'12'`) is present, yet no creation event (indeed no event at all) is
emitted, because the read fault of the entry-write-time value (`'17'`)
raises first; the claim's "emitted if and only if its raw value is
present, independently of the others" fails. -/
theorem c5_fault_counterexample :
    (getValueByName c5BadKey "12").isSome = true ∧
      eventsOf (ParseFileReferenceKey c5BadKey) = [] ∧
      (ParseFileReferenceKey c5BadKey).crashed = true := by
  refine ⟨by decide, by decide, by decide⟩

/-- Claim C5 (amended): for every file-reference key whose four timestamp
values read without fault and whose sha1 value, when present, decodes to
text, the File Entry Decoder emits at most four timestamped events, all
carrying the same single record: entry write time `'17'` (tick counter,
modification), file creation time `'12'` (tick counter, creation), file
modification time `'11'` (tick counter, modification) and compilation
time `'f'` (epoch seconds, change), each emitted if and only if its raw
value is present, independently of the presence of the others. -/
theorem c5_file_time_events_amended (k : RegfKey)
    (htime : ∀ n ∈ (["17", "12", "11", "f"] : List String), ∀ v,
      getValueByName k n = some v → v.readFault = false)
    (hsha : ∀ v, getValueByName k "101" = some v →
      v.readFault = false ∧ v.type.isStringLike = true) :
    (ParseFileReferenceKey k).crashed = false ∧
      eventsOf (ParseFileReferenceKey k) = specFileTimeEvents k (fileRecordOf k) := by
  have hnc := (fileRecordResult_of_sha1_safe k hsha).1
  have h17 := produceTimeEvent_ok k "17" DateTimeVal.filetime .modification
    (.file (fileRecordOf k)) (fun v hv => htime "17" (by simp) v hv)
  have h12 := produceTimeEvent_ok k "12" DateTimeVal.filetime .creation
    (.file (fileRecordOf k)) (fun v hv => htime "12" (by simp) v hv)
  have h11 := produceTimeEvent_ok k "11" DateTimeVal.filetime .modification
    (.file (fileRecordOf k)) (fun v hv => htime "11" (by simp) v hv)
  have hf := produceTimeEvent_ok k "f" DateTimeVal.posix .change
    (.file (fileRecordOf k)) (fun v hv => htime "f" (by simp) v hv)
  unfold ParseFileReferenceKey
  rcases hr : fileRecordResult k with ⟨d, ws, crashed⟩
  rw [hr] at hnc
  simp only at hnc
  subst hnc
  have hdof : fileRecordOf k = d := by
    unfold fileRecordOf
    rw [hr]
  rw [hdof] at h17 h12 h11 hf
  simp only [h17, h12, h11, hf, Run.seq]
  rcases hv17 : getValueByName k "17" with _ | v17 <;>
    rcases hv12 : getValueByName k "12" with _ | v12 <;>
      rcases hv11 : getValueByName k "11" with _ | v11 <;>
        rcases hvf : getValueByName k "f" with _ | vf <;>
          simp [eventsOf_eq, specFileTimeEvents, hv17, hv12, hv11, hvf, hdof, emEvent]

/-- Claim C5 witness: on `c5wKey` the hypotheses hold, exactly the two
present timestamps (`'17'`, `'11'`) yield events, both modification, both
carrying the record with the stripped sha1. -/
theorem c5_file_time_events_witness :
    (ParseFileReferenceKey c5wKey).crashed = false ∧
      eventsOf (ParseFileReferenceKey c5wKey) =
        specFileTimeEvents c5wKey (fileRecordOf c5wKey) :=
  c5_file_time_events_amended c5wKey (by decide) (by decide)

/-- Claim C6 counterexample: on `c6BadKey` the installation-time value
(`'a'`) is present, yet zero events are emitted (its read fault raises),
so "exactly one timestamped event if and only if the installation-time
value is present" fails as stated. -/
theorem c6_fault_counterexample :
    (getValueByName c6BadKey "a").isSome = true ∧
      eventsOf (ParseProgramKey c6BadKey) = [] ∧
      (ParseProgramKey c6BadKey).crashed = true := by
  refine ⟨by decide, by decide, by decide⟩

/-- Claim C6 (amended): for every key directly under `Root\Programs`
whose installation-time value (`'a'`), when present, reads without fault,
the Program Entry Decoder emits exactly one timestamped event, tagged
installation (epoch seconds), if and only if that value is present; a
program key without it yields zero program events, its other mapped
values notwithstanding. -/
theorem c6_program_event_amended (k : RegfKey)
    (h : ∀ v, getValueByName k "a" = some v → v.readFault = false) :
    (ParseProgramKey k).crashed = false ∧
      eventsOf (ParseProgramKey k) = specProgramEvents k (programRecordOf k) := by
  have ha := produceTimeEvent_ok k "a" DateTimeVal.posix .installation
    (.program (programRecordOf k)) h
  unfold ParseProgramKey
  rcases hr : programRecordResult k with ⟨d, ws⟩
  have hdof : programRecordOf k = d := by
    unfold programRecordOf
    rw [hr]
  rw [hdof] at ha
  simp only [ha, Run.seq]
  rcases hva : getValueByName k "a" with _ | va <;>
    simp [eventsOf_eq, specProgramEvents, hva, hdof, emEvent]

/-- Claim C6 witness: on `c6wKey` (name value plus installation time) the
hypothesis holds and exactly one installation event is emitted; dropping
the `'a'` value (key `c1Tree`'s program child has only a name) yields
zero program events. -/
theorem c6_program_event_witness :
    (ParseProgramKey c6wKey).crashed = false ∧
      eventsOf (ParseProgramKey c6wKey) = specProgramEvents c6wKey (programRecordOf c6wKey) :=
  c6_program_event_amended c6wKey (by decide)

/-! ## Claim C7: order lemmas for the comparators -/

theorem charListLtB_trans :
    ∀ as bs cs : List Char, charListLtB as bs = true → charListLtB bs cs = true →
      charListLtB as cs = true := by
  intro as
  induction as with
  | nil =>
    intro bs cs h1 h2
    cases bs with
    | nil => simp [charListLtB] at h1
    | cons b bs =>
      cases cs with
      | nil => simp [charListLtB] at h2
      | cons c cs => simp [charListLtB]
  | cons a as ih =>
    intro bs cs h1 h2
    cases bs with
    | nil => simp [charListLtB] at h1
    | cons b bs =>
      cases cs with
      | nil => simp [charListLtB] at h2
      | cons c cs =>
        simp only [charListLtB, charLtB] at h1 h2 ⊢
        by_cases hab : a < b
        · by_cases hbc : b < c
          · simp [lt_trans hab hbc]
          · by_cases hcb : c < b
            · simp [hbc, hcb] at h2
            · have : b = c := le_antisymm (not_lt.mp hcb) (not_lt.mp hbc)
              subst this
              simp [hab]
        · by_cases hba : b < a
          · simp [hab, hba] at h1
          · have hab' : a = b := le_antisymm (not_lt.mp hba) (not_lt.mp hab)
            subst hab'
            simp only [lt_irrefl, decide_False, decide_eq_false_iff_not, not_lt, le_refl,
              if_false, Bool.false_eq_true] at h1 ⊢
            by_cases hac : a < c
            · simp [hac]
            · by_cases hca : c < a
              · simp [hac, hca] at h2
              · have hac' : a = c := le_antisymm (not_lt.mp hca) (not_lt.mp hac)
                subst hac'
                simp only [lt_irrefl, decide_False, decide_eq_false_iff_not, not_lt, le_refl,
              if_false, Bool.false_eq_true] at h2 ⊢
                exact ih bs cs h1 h2

theorem charListLtB_asymm :
    ∀ as bs : List Char, charListLtB as bs = true → charListLtB bs as = true → False := by
  intro as
  induction as with
  | nil =>
    intro bs h1 h2
    cases bs with
    | nil => simp [charListLtB] at h1
    | cons b bs => simp [charListLtB] at h2
  | cons a as ih =>
    intro bs h1 h2
    cases bs with
    | nil => simp [charListLtB] at h1
    | cons b bs =>
      simp only [charListLtB, charLtB] at h1 h2
      by_cases hab : a < b
      · by_cases hba : b < a
        · exact absurd hab (lt_asymm hba)
        · simp [hab, hba] at h2
      · by_cases hba : b < a
        · simp [hab, hba] at h1
        · simp [hab, hba] at h1 h2
          exact ih bs h1 h2

theorem charListLtB_conn :
    ∀ as bs : List Char, charListLtB as bs = false → charListLtB bs as = false →
      as = bs := by
  intro as
  induction as with
  | nil =>
    intro bs h1 h2
    cases bs with
    | nil => rfl
    | cons b bs => simp [charListLtB] at h1
  | cons a as ih =>
    intro bs h1 h2
    cases bs with
    | nil => simp [charListLtB] at h2
    | cons b bs =>
      simp only [charListLtB, charLtB] at h1 h2
      by_cases hab : a < b
      · simp [hab] at h1
      · by_cases hba : b < a
        · simp [hab, hba] at h2
        · have hab' : a = b := le_antisymm (not_lt.mp hba) (not_lt.mp hab)
          subst hab'
          simp [hab] at h1 h2
          rw [ih bs h1 h2]

theorem strLtB_trans {a b c : String} (h1 : strLtB a b = true) (h2 : strLtB b c = true) :
    strLtB a c = true :=
  charListLtB_trans a.data b.data c.data h1 h2

theorem strLtB_asymm {a b : String} (h1 : strLtB a b = true) (h2 : strLtB b a = true) :
    False :=
  charListLtB_asymm a.data b.data h1 h2

theorem strLtB_conn {a b : String} (h1 : strLtB a b = false) (h2 : strLtB b a = false) :
    a = b := by
  apply String.ext
  exact charListLtB_conn a.data b.data h1 h2

theorem strLtB_irrefl (a : String) : strLtB a a = false := by
  by_contra h
  rw [Bool.not_eq_false] at h
  exact strLtB_asymm h h

/-- Tuple `<` facts for the pair comparator. -/
theorem pairLtB_asymm {a b : String × String} (h1 : pairLtB a b = true)
    (h2 : pairLtB b a = true) : False := by
  unfold pairLtB at h1 h2
  simp only [Bool.or_eq_true, Bool.and_eq_true, beq_iff_eq] at h1 h2
  rcases h1 with h1 | ⟨he1, h1⟩
  · rcases h2 with h2 | ⟨he2, h2⟩
    · exact strLtB_asymm h1 h2
    · rw [he2] at h1
      exact absurd h1 (by simp [strLtB_irrefl])
  · rcases h2 with h2 | ⟨he2, h2⟩
    · rw [he1] at h2
      exact absurd h2 (by simp [strLtB_irrefl])
    · exact strLtB_asymm h1 h2

theorem pairLtB_parts {a b : String × String} (h : pairLtB a b = false) :
    strLtB a.1 b.1 = false ∧ (a.1 = b.1 → strLtB a.2 b.2 = false) := by
  unfold pairLtB at h
  rw [Bool.or_eq_false_iff] at h
  refine ⟨h.1, fun he => ?_⟩
  have h2 := h.2
  cases hy : (a.1 == b.1) with
  | false =>
    rw [beq_eq_false_iff_ne] at hy
    exact absurd he hy
  | true =>
    rw [hy, Bool.true_and] at h2
    exact h2

theorem pairLtB_of_not_not {a b : String × String} (h1 : pairLtB a b = false)
    (h2 : pairLtB b a = false) : a = b := by
  obtain ⟨hn1, hv1⟩ := pairLtB_parts h1
  obtain ⟨hn2, hv2⟩ := pairLtB_parts h2
  have hn : a.1 = b.1 := strLtB_conn hn1 hn2
  have hv : a.2 = b.2 := strLtB_conn (hv1 hn) (hv2 hn.symm)
  exact Prod.ext hn hv

theorem pairLeB_total (a b : String × String) :
    pairLeB a b = true ∨ pairLeB b a = true := by
  unfold pairLeB
  by_cases h1 : pairLtB b a = true
  · right
    by_cases h2 : pairLtB a b = true
    · exact absurd (pairLtB_asymm h1 h2) (by simp)
    · simp [Bool.not_eq_true] at h2
      simp [h2]
  · left
    simp [Bool.not_eq_true] at h1
    simp [h1]

/-- Transitivity of the non-strict string order `strLtB _ _ = false`. -/
theorem strLeB_trans {a b c : String} (h1 : strLtB b a = false)
    (h2 : strLtB c b = false) : strLtB c a = false := by
  by_contra hca
  rw [Bool.not_eq_false] at hca
  cases hbc : strLtB b c with
  | true =>
    have hba := strLtB_trans hbc hca
    rw [hba] at h1
    simp at h1
  | false =>
    have hb : b = c := strLtB_conn hbc h2
    subst hb
    rw [hca] at h1
    simp at h1

theorem pairLeB_trans {a b c : String × String} (h1 : pairLeB a b = true)
    (h2 : pairLeB b c = true) : pairLeB a c = true := by
  unfold pairLeB at h1 h2 ⊢
  rw [Bool.not_eq_true'] at h1 h2 ⊢
  obtain ⟨hba, hba2⟩ := pairLtB_parts h1
  obtain ⟨hcb, hcb2⟩ := pairLtB_parts h2
  have hfst : strLtB c.1 a.1 = false := strLeB_trans hba hcb
  unfold pairLtB
  rw [Bool.or_eq_false_iff]
  refine ⟨hfst, ?_⟩
  cases hy : (c.1 == a.1) with
  | false => rfl
  | true =>
    rw [Bool.true_and]
    rw [beq_iff_eq] at hy
    -- names collapse: a.1 = b.1 = c.1
    have hab : a.1 = b.1 := by
      refine strLtB_conn ?_ hba
      rw [← hy]
      exact hcb
    have hbc : b.1 = c.1 := by rw [← hab, hy]
    exact strLeB_trans (hba2 hab.symm) (hcb2 hbc.symm)

theorem nameLeB_total (a b : String × String) :
    nameLeB a b = true ∨ nameLeB b a = true := by
  unfold nameLeB
  cases h1 : strLtB b.1 a.1 with
  | false => left; rfl
  | true =>
    right
    cases h2 : strLtB a.1 b.1 with
    | false => rfl
    | true => exact (strLtB_asymm h1 h2).elim

theorem nameLeB_trans {a b c : String × String} (h1 : nameLeB a b = true)
    (h2 : nameLeB b c = true) : nameLeB a c = true := by
  unfold nameLeB at h1 h2 ⊢
  rw [Bool.not_eq_true'] at h1 h2 ⊢
  exact strLeB_trans h1 h2

theorem strict_of_pairLeB {a b : String × String} (hle : pairLeB a b = true)
    (hne : a.1 ≠ b.1) : strLtB a.1 b.1 = true := by
  unfold pairLeB at hle
  rw [Bool.not_eq_true'] at hle
  obtain ⟨hba, _⟩ := pairLtB_parts hle
  cases hab : strLtB a.1 b.1 with
  | false => exact absurd (strLtB_conn hab hba) hne
  | true => rfl

theorem strict_of_nameLeB {a b : String × String} (hle : nameLeB a b = true)
    (hne : a.1 ≠ b.1) : strLtB a.1 b.1 = true := by
  unfold nameLeB at hle
  rw [Bool.not_eq_true'] at hle
  cases hab : strLtB a.1 b.1 with
  | false => exact absurd (strLtB_conn hab hle) hne
  | true => rfl

/-- With pairwise-distinct names, the stable sort by Python tuple order
and the sort by name only agree (claim C7's "sorted lexically by value
name"). -/
theorem insertionSort_pairLe_eq_nameLe (l : List (String × String))
    (hn : (l.map Prod.fst).Nodup) :
    List.insertionSort (fun a b => pairLeB a b = true) l =
      List.insertionSort (fun a b => nameLeB a b = true) l := by
  have hperm1 := List.perm_insertionSort (fun a b => pairLeB a b = true) l
  have hperm2 := List.perm_insertionSort (fun a b => nameLeB a b = true) l
  haveI : IsTotal (String × String) (fun a b => pairLeB a b = true) := ⟨pairLeB_total⟩
  haveI : IsTrans (String × String) (fun a b => pairLeB a b = true) :=
    ⟨fun _ _ _ => pairLeB_trans⟩
  haveI : IsTotal (String × String) (fun a b => nameLeB a b = true) := ⟨nameLeB_total⟩
  haveI : IsTrans (String × String) (fun a b => nameLeB a b = true) :=
    ⟨fun _ _ _ => nameLeB_trans⟩
  have hs1 := List.sorted_insertionSort (fun a b => pairLeB a b = true) l
  have hs2 := List.sorted_insertionSort (fun a b => nameLeB a b = true) l
  have hne1 : (List.insertionSort (fun a b => pairLeB a b = true) l).Pairwise
      (fun a b => a.1 ≠ b.1) := by
    have := ((hperm1.map Prod.fst).nodup_iff).mpr hn
    rw [List.Nodup, List.pairwise_map] at this
    exact this
  have hne2 : (List.insertionSort (fun a b => nameLeB a b = true) l).Pairwise
      (fun a b => a.1 ≠ b.1) := by
    have := ((hperm2.map Prod.fst).nodup_iff).mpr hn
    rw [List.Nodup, List.pairwise_map] at this
    exact this
  have hstrict1 : (List.insertionSort (fun a b => pairLeB a b = true) l).Pairwise
      (fun a b => strLtB a.1 b.1 = true) :=
    (hs1.and hne1).imp (fun h => strict_of_pairLeB h.1 h.2)
  have hstrict2 : (List.insertionSort (fun a b => nameLeB a b = true) l).Pairwise
      (fun a b => strLtB a.1 b.1 = true) :=
    (hs2.and hne2).imp (fun h => strict_of_nameLeB h.1 h.2)
  haveI : IsAntisymm (String × String) (fun a b => strLtB a.1 b.1 = true) :=
    ⟨fun _ _ h1 h2 => (strLtB_asymm h1 h2).elim⟩
  exact List.eq_of_perm_of_sorted (hperm1.trans hperm2.symm) hstrict1 hstrict2

/-! ## Claim C7: the display formatter refines the claim's rules -/

/-- Inserting an unused name appends. -/
theorem pyDictInsert_notMem (dict : List (String × String)) (n s : String)
    (h : ∀ p ∈ dict, n ≠ p.1) : pyDictInsert dict n s = dict ++ [(n, s)] := by
  unfold pyDictInsert
  have : dict.any (fun p => p.1 == n) = false := by
    rw [List.any_eq_false]
    intro p hp
    simp [(h p hp).symm]
  rw [this]
  simp

/-- A fault-free value renders exactly as the claim's rules say, with no
warning. -/
theorem renderValue_eq_claim (v : RegfValue) (bytes : List Nat)
    (hf : v.readFault = false) (hd : v.data = some bytes) :
    renderValue v bytes = (claimRenderValue v, []) := by
  unfold renderValue claimRenderValue GetValueDataAsObject multiListOf pyStr
  cases htype : v.type <;>
    simp [RegType.isStringLike, RegType.isIntegerLike, hf, hd]

/-- The `_GetValuesFromKey` loop on fault-free values with distinct
rendered names is the claim's filterMap, with no warnings. -/
theorem getValuesGo_eq_filterMap (skips : List String) :
    ∀ (vs : List RegfValue) (dict : List (String × String)) (ws : List String),
      (∀ v ∈ vs, v.readFault = false) →
      (∀ v ∈ vs, ∀ p ∈ dict, renderedName v ≠ p.1) →
      ((vs.map renderedName).Nodup) →
      getValuesGo skips vs dict ws =
        (dict ++ vs.filterMap (fun v =>
          if skips.contains (pyLower (renderedName v)) then none
          else some (renderedName v, claimRenderValue v)), ws) := by
  intro vs
  induction vs with
  | nil =>
    intro dict ws _ _ _
    simp [getValuesGo]
  | cons v vs ih =>
    intro dict ws hf hd hn
    have hfv : v.readFault = false := hf v (List.mem_cons_self _ _)
    have hfr : ∀ v' ∈ vs, v'.readFault = false :=
      fun v' hv' => hf v' (List.mem_cons_of_mem _ hv')
    have hnv : ∀ v' ∈ vs, renderedName v' ≠ renderedName v := by
      intro v' hv'
      have h0 := hn
      rw [List.map_cons, List.nodup_cons] at h0
      intro he
      exact h0.1 (he ▸ List.mem_map_of_mem renderedName hv')
    have hnr : (vs.map renderedName).Nodup := by
      have h0 := hn
      rw [List.map_cons, List.nodup_cons] at h0
      exact h0.2
    have hdtail : ∀ v' ∈ vs, ∀ p ∈ dict, renderedName v' ≠ p.1 :=
      fun v' hv' => hd v' (List.mem_cons_of_mem _ hv')
    simp only [getValuesGo]
    cases hskip : skips.contains (pyLower (renderedName v)) with
    | true =>
      have hskip' : pyLower (renderedName v) ∈ skips := by simpa using hskip
      rw [if_pos rfl, ih dict ws hfr hdtail hnr]
      simp [List.filterMap_cons, hskip']
    | false =>
      have hskip' : pyLower (renderedName v) ∉ skips := by simpa using hskip
      rw [if_neg Bool.false_ne_true]
      cases hdata : v.data with
      | none =>
        rw [pyDictInsert_notMem dict (renderedName v) "(empty)"
          (fun p hp => hd v (List.mem_cons_self _ _) p hp)]
        have hdnew : ∀ v' ∈ vs, ∀ p ∈ dict ++ [(renderedName v, "(empty)")],
            renderedName v' ≠ p.1 := by
          intro v' hv' p hp
          rcases List.mem_append.mp hp with hp | hp
          · exact hdtail v' hv' p hp
          · rcases List.mem_singleton.mp hp with rfl
            exact hnv v' hv'
        rw [ih _ ws hfr hdnew hnr]
        have hcl : claimRenderValue v = "(empty)" := by
          unfold claimRenderValue
          rw [hdata]
        simp [List.filterMap_cons, hskip', hcl]
      | some bytes =>
        dsimp only
        rw [renderValue_eq_claim v bytes hfv hdata]
        rw [pyDictInsert_notMem dict (renderedName v) (claimRenderValue v)
          (fun p hp => hd v (List.mem_cons_self _ _) p hp)]
        have hdnew : ∀ v' ∈ vs, ∀ p ∈ dict ++ [(renderedName v, claimRenderValue v)],
            renderedName v' ≠ p.1 := by
          intro v' hv' p hp
          rcases List.mem_append.mp hp with hp | hp
          · exact hdtail v' hv' p hp
          · rcases List.mem_singleton.mp hp with rfl
            exact hnv v' hv'
        rw [ih _ (ws ++ []) hfr hdnew hnr]
        simp [List.filterMap_cons, hskip']

/-- The rendered names of the summary entries form a sublist of the
rendered names of all values. -/
theorem filterMap_entries_names_sublist (skips : List String) (vs : List RegfValue) :
    ((vs.filterMap (fun v =>
      if skips.contains (pyLower (renderedName v)) then none
      else some (renderedName v, claimRenderValue v))).map Prod.fst).Sublist
      (vs.map renderedName) := by
  induction vs with
  | nil => simp
  | cons v vs ih =>
    rw [List.filterMap_cons, List.map_cons]
    by_cases hs : skips.contains (pyLower (renderedName v)) = true
    · rw [if_pos hs]
      exact ih.cons _
    · rw [if_neg hs]
      rw [List.map_cons]
      exact ih.cons₂ _

theorem fmt_data_ne_nil (p : String × String) : (p.1 ++ ": " ++ p.2).data ≠ [] := by
  intro h
  rw [String.data_append, String.data_append] at h
  rcases List.append_eq_nil.mp h with ⟨h1, _⟩
  rcases List.append_eq_nil.mp h1 with ⟨_, h4⟩
  exact absurd h4 (by decide)

theorem pyJoin_fmt_ne_empty (p : String × String) (rest : List (String × String)) :
    pyJoin " " ((p :: rest).map (fun q => q.1 ++ ": " ++ q.2)) ≠ "" := by
  intro h
  have hd := congrArg String.data h
  cases rest with
  | nil =>
    rw [List.map_cons, List.map_nil] at hd
    exact fmt_data_ne_nil p hd
  | cons q rest =>
    rw [List.map_cons, List.map_cons] at hd
    rw [show pyJoin " " ((p.1 ++ ": " ++ p.2) :: (q.1 ++ ": " ++ q.2) ::
          rest.map (fun q => q.1 ++ ": " ++ q.2)) =
        (p.1 ++ ": " ++ p.2) ++ " " ++ pyJoin " " ((q.1 ++ ": " ++ q.2) ::
          rest.map (fun q => q.1 ++ ": " ++ q.2)) from rfl] at hd
    rw [String.data_append, String.data_append] at hd
    rcases List.append_eq_nil.mp hd with ⟨h1, _⟩
    rcases List.append_eq_nil.mp h1 with ⟨h3, _⟩
    exact fmt_data_ne_nil p h3

/-- Claim C7: for a key whose value reads do not fault and whose rendered
value names are distinct (the hive contract), the generic event's
value-summary string covers every value not on the caller-supplied skip
list, rendered as `"(default)"` for an empty name, `"(empty)"` for a null
payload, `"[a, b, c]"` for multi-string (`"[]"` when empty), the decoded
scalar's text for string/link/integer types and `"(N bytes)"` otherwise,
entries `"name: value"` joined space-separated and sorted lexically by
value name independent of source order, with an empty result absent; and
no warnings are emitted. -/
theorem c7_value_summary (k : RegfKey) (names_to_skip : List String)
    (hf : ∀ v ∈ k.values, v.readFault = false)
    (hn : (k.values.map renderedName).Nodup) :
    registryValuesString k names_to_skip = (claimValueSummary k names_to_skip, []) := by
  unfold registryValuesString GetValuesFromKey claimValueSummary pySortedItems
  rw [getValuesGo_eq_filterMap (names_to_skip.map pyLower) k.values [] [] hf
    (by simp) hn]
  dsimp only
  rw [List.nil_append]
  have hsubl := filterMap_entries_names_sublist (names_to_skip.map pyLower) k.values
  have hnodup := hn.sublist hsubl
  rw [insertionSort_pairLe_eq_nameLe _ hnodup]
  cases hsort : List.insertionSort (fun a b => nameLeB a b = true)
      (k.values.filterMap (fun v =>
        if (names_to_skip.map pyLower).contains (pyLower (renderedName v)) then none
        else some (renderedName v, claimRenderValue v))) with
  | nil => simp [pyJoin]
  | cons p rest =>
    have hne := pyJoin_fmt_ne_empty p rest
    rw [List.map_cons] at hne
    simp [hne]

/-- Claim C7 witness: on `c7wKey` (five values arriving out of order: a
string, a two-element multi-string, a 3-byte binary, a null payload and a
default-named integer) the summary is exactly the claim's rendering. -/
theorem c7_value_summary_witness :
    registryValuesString c7wKey [] = (claimValueSummary c7wKey [], []) ∧
      claimValueSummary c7wKey [] =
        some "(default): 7 bin: (3 bytes) e: (empty) m: [a, b] z: last" :=
  ⟨c7_value_summary c7wKey [] (by decide) (by decide), by decide⟩

/-! ## Claims C9 and C10: traversal lemmas -/

theorem Run.seq_crashed (a b : Run) : (a.seq b).crashed = (a.crashed || b.crashed) := by
  unfold Run.seq
  cases h : a.crashed with
  | true => simp [h]
  | false => simp [h]

theorem Run.seq_out_subset {a b : Run} {em : Emission} (h : em ∈ (a.seq b).out) :
    em ∈ a.out ∨ em ∈ b.out := by
  unfold Run.seq at h
  cases hc : a.crashed with
  | true =>
    rw [hc] at h
    simp only [if_true] at h
    exact Or.inl h
  | false =>
    rw [hc] at h
    simp only [Bool.false_eq_true, if_false] at h
    exact List.mem_append.mp h

theorem getValueByName_mem {k : RegfKey} {n : String} {v : RegfValue}
    (h : getValueByName k n = some v) : v ∈ k.values ∧ v.name = n := by
  unfold getValueByName at h
  have h1 := List.find?_some h
  have h2 := List.mem_of_find?_eq_some h
  exact ⟨h2, by simpa using h1⟩

theorem GetValueDataAsObject_warnings (v : RegfValue) (hf : v.readFault = false) :
    (GetValueDataAsObject v).2 = [] := by
  unfold GetValueDataAsObject
  split_ifs <;> simp_all

theorem getValuesGo_warnings (skips : List String) :
    ∀ (vs : List RegfValue) (dict : List (String × String)) (ws : List String),
      (∀ v ∈ vs, v.readFault = false) →
      (getValuesGo skips vs dict ws).2 = ws := by
  intro vs
  induction vs with
  | nil => intro dict ws _; rfl
  | cons v vs ih =>
    intro dict ws hf
    have hfv : v.readFault = false := hf v (List.mem_cons_self _ _)
    have hfr : ∀ v' ∈ vs, v'.readFault = false :=
      fun v' hv' => hf v' (List.mem_cons_of_mem _ hv')
    simp only [getValuesGo]
    cases hskip : skips.contains (pyLower (renderedName v)) with
    | true =>
      rw [if_pos rfl]
      exact ih _ _ hfr
    | false =>
      rw [if_neg Bool.false_ne_true]
      cases hdata : v.data with
      | none => exact ih _ _ hfr
      | some bytes =>
        dsimp only
        have hw : (renderValue v bytes).2 = [] := by
          unfold renderValue
          split_ifs <;> exact GetValueDataAsObject_warnings v hfv
        rw [hw, List.append_nil]
        exact ih _ _ hfr

theorem registryValuesString_warnings (k : RegfKey) (skip : List String)
    (hf : ∀ v ∈ k.values, v.readFault = false) :
    (registryValuesString k skip).2 = [] := by
  unfold registryValuesString GetValuesFromKey
  exact getValuesGo_warnings _ k.values [] [] hf

/-- With fault-free values the default registry event is the whole output
of `_ProduceDefaultWindowsRegistryEvent`. -/
theorem ProduceDefault_noFault (k : RegfKey) (path : String) (skip : List String)
    (hf : ∀ v ∈ k.values, v.readFault = false) :
    ProduceDefaultWindowsRegistryEvent k path skip =
      ⟨[Emission.event (defaultRegistryEvent k path skip)], false⟩ := by
  unfold ProduceDefaultWindowsRegistryEvent
  rw [registryValuesString_warnings k skip hf]
  rfl

theorem registryEventsOf_seq (a b : Run) :
    registryEventsOf (a.seq b) =
      registryEventsOf a ++ (if a.crashed then [] else registryEventsOf b) := by
  unfold Run.seq registryEventsOf
  cases h : a.crashed with
  | true => simp
  | false => simp

@[simp] theorem filterMap_emRegistryEvent_warnings (ws : List String) :
    (ws.map Emission.warning).filterMap emRegistryEvent = [] := by
  induction ws with
  | nil => rfl
  | cons w ws ih => simp [emRegistryEvent, ih]

theorem registryEventsOf_produceTimeEvent (k : RegfKey) (n : String)
    (clock : Int → DateTimeVal) (desc : TimeDescription) (d : AMCacheFileEventData) :
    registryEventsOf (produceTimeEvent k n clock desc (.file d)) = [] := by
  unfold produceTimeEvent registryEventsOf
  cases getValueByName k n with
  | none => rfl
  | some v =>
    dsimp only
    split_ifs <;> rfl

theorem registryEventsOf_produceTimeEventP (k : RegfKey) (n : String)
    (clock : Int → DateTimeVal) (desc : TimeDescription) (d : AMCacheProgramEventData) :
    registryEventsOf (produceTimeEvent k n clock desc (.program d)) = [] := by
  unfold produceTimeEvent registryEventsOf
  cases getValueByName k n with
  | none => rfl
  | some v =>
    dsimp only
    split_ifs <;> rfl

theorem registryEventsOf_parseFileRef (k : RegfKey) :
    registryEventsOf (ParseFileReferenceKey k) = [] := by
  unfold ParseFileReferenceKey
  rw [registryEventsOf_seq, registryEventsOf_seq, registryEventsOf_seq,
    registryEventsOf_seq]
  simp only [registryEventsOf_produceTimeEvent]
  have hbase : registryEventsOf
      ⟨(fileRecordResult k).2.1.map Emission.warning, (fileRecordResult k).2.2⟩ = [] :=
    filterMap_emRegistryEvent_warnings _
  simp [hbase]

theorem registryEventsOf_parseFileRefs : ∀ f : RegfForest,
    registryEventsOf (parseFileRefs f) = []
  | .nil => rfl
  | .cons k rest => by
    unfold parseFileRefs
    rw [registryEventsOf_seq, registryEventsOf_parseFileRef,
      registryEventsOf_parseFileRefs rest]
    simp

theorem registryEventsOf_parseVolumes : ∀ f : RegfForest,
    registryEventsOf (parseVolumes f) = []
  | .nil => rfl
  | .cons k rest => by
    unfold parseVolumes
    rw [registryEventsOf_seq, registryEventsOf_parseFileRefs _,
      registryEventsOf_parseVolumes rest]
    simp

theorem registryEventsOf_parseProgram (k : RegfKey) :
    registryEventsOf (ParseProgramKey k) = [] := by
  unfold ParseProgramKey
  rw [registryEventsOf_seq]
  simp only [registryEventsOf_produceTimeEventP]
  have hbase : registryEventsOf
      ⟨(programRecordResult k).2.map Emission.warning, false⟩ = [] :=
    filterMap_emRegistryEvent_warnings _
  simp [hbase]

theorem registryEventsOf_parsePrograms : ∀ f : RegfForest,
    registryEventsOf (parseProgramList f) = []
  | .nil => rfl
  | .cons k rest => by
    unfold parseProgramList
    rw [registryEventsOf_seq, registryEventsOf_parseProgram,
      registryEventsOf_parsePrograms rest]
    simp

theorem registryEventsOf_specialized (sub : RegfKey) :
    registryEventsOf (specializedRun sub) = [] := by
  unfold specializedRun
  split_ifs
  · exact registryEventsOf_parseVolumes _
  · exact registryEventsOf_parsePrograms _
  · rfl

theorem valueSafe_fault {v : RegfValue} (h : valueSafe v = true) :
    v.readFault = false := by
  unfold valueSafe at h
  rw [Bool.and_eq_true, Bool.not_eq_true'] at h
  exact h.1

theorem valueSafe_sha1 {v : RegfValue} (h : valueSafe v = true) (hn : v.name = "101") :
    v.type.isStringLike = true := by
  unfold valueSafe at h
  rw [Bool.and_eq_true, Bool.or_eq_true, bne_iff_ne] at h
  rcases h.2 with h2 | h2
  · exact absurd hn h2
  · exact h2

/-- Membership facts for `allKeys`. -/
theorem allKeys_node (n : String) (t : Int) (vs : List RegfValue) (subs : RegfForest) :
    RegfKey.allKeys (.node n t vs subs) =
      RegfKey.node n t vs subs :: RegfForest.allKeys subs := by
  rw [RegfKey.allKeys]

theorem allKeys_cons (k : RegfKey) (rest : RegfForest) :
    RegfForest.allKeys (.cons k rest) = k.allKeys ++ RegfForest.allKeys rest := by
  rw [RegfForest.allKeys]

theorem self_mem_allKeys (k : RegfKey) : k ∈ k.allKeys := by
  cases k with
  | node n t vs subs =>
    rw [allKeys_node]
    exact List.mem_cons_self _ _

theorem subKeys_allKeys_subset {j : RegfKey} (k : RegfKey)
    (h : j ∈ RegfForest.allKeys k.subKeys) : j ∈ k.allKeys := by
  cases k with
  | node n t vs subs =>
    rw [allKeys_node]
    exact List.mem_cons_of_mem _ h

theorem produceTimeEvent_noCrash (k : RegfKey) (n : String) (clock : Int → DateTimeVal)
    (desc : TimeDescription) (dat : EventDataRec)
    (h : ∀ v ∈ k.values, valueSafe v = true) :
    (produceTimeEvent k n clock desc dat).crashed = false := by
  unfold produceTimeEvent
  cases hv : getValueByName k n with
  | none => rfl
  | some v =>
    obtain ⟨hm, _⟩ := getValueByName_mem hv
    have hfv := valueSafe_fault (h v hm)
    dsimp only
    rw [if_neg (by simp [hfv])]

theorem ParseFileReferenceKey_noCrash (k : RegfKey)
    (h : ∀ v ∈ k.values, valueSafe v = true) :
    (ParseFileReferenceKey k).crashed = false := by
  have hsha : ∀ v, getValueByName k "101" = some v →
      v.readFault = false ∧ v.type.isStringLike = true := by
    intro v hv
    obtain ⟨hm, hn⟩ := getValueByName_mem hv
    exact ⟨valueSafe_fault (h v hm), valueSafe_sha1 (h v hm) hn⟩
  have hbase := (fileRecordResult_of_sha1_safe k hsha).1
  unfold ParseFileReferenceKey
  rw [Run.seq_crashed, Run.seq_crashed, Run.seq_crashed, Run.seq_crashed]
  simp [hbase, produceTimeEvent_noCrash k _ _ _ _ h]

theorem ParseProgramKey_noCrash (k : RegfKey)
    (h : ∀ v ∈ k.values, valueSafe v = true) :
    (ParseProgramKey k).crashed = false := by
  unfold ParseProgramKey
  rw [Run.seq_crashed]
  simp [produceTimeEvent_noCrash k _ _ _ _ h]

theorem parseFileRefs_noCrash : ∀ f : RegfForest,
    (∀ j ∈ RegfForest.allKeys f, ∀ v ∈ j.values, valueSafe v = true) →
    (parseFileRefs f).crashed = false
  | .nil, _ => rfl
  | .cons k rest, h => by
    unfold parseFileRefs
    rw [Run.seq_crashed]
    have h1 : ∀ v ∈ k.values, valueSafe v = true :=
      h k (by rw [allKeys_cons]; exact List.mem_append_left _ (self_mem_allKeys k))
    have h2 := parseFileRefs_noCrash rest
      (fun j hj => h j (by rw [allKeys_cons]; exact List.mem_append_right _ hj))
    rw [ParseFileReferenceKey_noCrash k h1, h2]
    rfl

theorem parseVolumes_noCrash : ∀ f : RegfForest,
    (∀ j ∈ RegfForest.allKeys f, ∀ v ∈ j.values, valueSafe v = true) →
    (parseVolumes f).crashed = false
  | .nil, _ => rfl
  | .cons vol rest, h => by
    unfold parseVolumes
    rw [Run.seq_crashed]
    have h1 := parseFileRefs_noCrash vol.subKeys (fun j hj =>
      h j (by
        rw [allKeys_cons]
        exact List.mem_append_left _ (subKeys_allKeys_subset vol hj)))
    have h2 := parseVolumes_noCrash rest
      (fun j hj => h j (by rw [allKeys_cons]; exact List.mem_append_right _ hj))
    rw [h1, h2]
    rfl

theorem parseProgramList_noCrash : ∀ f : RegfForest,
    (∀ j ∈ RegfForest.allKeys f, ∀ v ∈ j.values, valueSafe v = true) →
    (parseProgramList f).crashed = false
  | .nil, _ => rfl
  | .cons k rest, h => by
    unfold parseProgramList
    rw [Run.seq_crashed]
    have h1 : ∀ v ∈ k.values, valueSafe v = true :=
      h k (by rw [allKeys_cons]; exact List.mem_append_left _ (self_mem_allKeys k))
    have h2 := parseProgramList_noCrash rest
      (fun j hj => h j (by rw [allKeys_cons]; exact List.mem_append_right _ hj))
    rw [ParseProgramKey_noCrash k h1, h2]
    rfl

theorem specializedRun_noCrash (sub : RegfKey)
    (h : ∀ j ∈ sub.allKeys, ∀ v ∈ j.values, valueSafe v = true) :
    (specializedRun sub).crashed = false := by
  unfold specializedRun
  split_ifs
  · exact parseVolumes_noCrash _ (fun j hj => h j (subKeys_allKeys_subset sub hj))
  · exact parseProgramList_noCrash _ (fun j hj => h j (subKeys_allKeys_subset sub hj))
  · rfl

mutual
/-- Under tree safety the generic walk of a subtree emits exactly the
pre-order default events, in order, and cannot crash. -/
theorem parseSubKey_safe : ∀ (k : RegfKey) (segs : List String),
    (∀ j ∈ k.allKeys, ∀ v ∈ j.values, valueSafe v = true) →
    ParseSubKey k segs =
      ⟨(preorderAux k segs).map
        (fun pk => Emission.event (defaultRegistryEvent pk.2 pk.1 [])), false⟩
  | .node n t vs subs, segs, h => by
    have hself : ∀ v ∈ (RegfKey.node n t vs subs).values, v.readFault = false :=
      fun v hv => valueSafe_fault (h _ (self_mem_allKeys _) v hv)
    have hsubs : ∀ j ∈ RegfForest.allKeys subs, ∀ v ∈ j.values, valueSafe v = true :=
      fun j hj => h j (by rw [allKeys_node]; exact List.mem_cons_of_mem _ hj)
    rw [ParseSubKey, ProduceDefault_noFault _ _ _ hself,
      parseSubKeyForest_safe subs segs hsubs, preorderAux]
    simp [Run.seq]

theorem parseSubKeyForest_safe : ∀ (f : RegfForest) (segs : List String),
    (∀ j ∈ RegfForest.allKeys f, ∀ v ∈ j.values, valueSafe v = true) →
    parseSubKeyForest f segs =
      ⟨(preorderForest f segs).map
        (fun pk => Emission.event (defaultRegistryEvent pk.2 pk.1 [])), false⟩
  | .nil, _, _ => rfl
  | .cons k rest, segs, h => by
    have h1 : ∀ j ∈ k.allKeys, ∀ v ∈ j.values, valueSafe v = true :=
      fun j hj => h j (by rw [allKeys_cons]; exact List.mem_append_left _ hj)
    have h2 : ∀ j ∈ RegfForest.allKeys rest, ∀ v ∈ j.values, valueSafe v = true :=
      fun j hj => h j (by rw [allKeys_cons]; exact List.mem_append_right _ hj)
    rw [parseSubKeyForest, parseSubKey_safe k (segs ++ [k.name]) h1,
      parseSubKeyForest_safe rest segs h2, preorderForest]
    simp [Run.seq]
end

/-- Under tree safety the root-children loop cannot crash and its output
decomposes child by child: the whole generic subtree walk first, then
that child's specialized handling. -/
theorem parseRootChildren_safe : ∀ f : RegfForest,
    (∀ j ∈ RegfForest.allKeys f, ∀ v ∈ j.values, valueSafe v = true) →
    parseRootChildren f =
      ⟨(RegfForest.toList f).flatMap (fun sub =>
        (ParseSubKey sub (["", "Root"] ++ [sub.name])).out ++ (specializedRun sub).out),
       false⟩
  | .nil, _ => rfl
  | .cons sub rest, h => by
    have h1 : ∀ j ∈ sub.allKeys, ∀ v ∈ j.values, valueSafe v = true :=
      fun j hj => h j (by rw [allKeys_cons]; exact List.mem_append_left _ hj)
    have h2 : ∀ j ∈ RegfForest.allKeys rest, ∀ v ∈ j.values, valueSafe v = true :=
      fun j hj => h j (by rw [allKeys_cons]; exact List.mem_append_right _ hj)
    have hnc1 : (ParseSubKey sub (["", "Root"] ++ [sub.name])).crashed = false := by
      rw [parseSubKey_safe sub _ h1]
    have hnc2 := specializedRun_noCrash sub h1
    rw [parseRootChildren, parseRootChildren_safe rest h2, RegfForest.toList]
    unfold Run.seq
    rw [hnc1, hnc2]
    simp [Run.seq_crashed, hnc1, hnc2]

theorem filterMap_em_map_default : ∀ l : List (String × RegfKey),
    List.filterMap emRegistryEvent
      (l.map (fun pk => Emission.event (defaultRegistryEvent pk.2 pk.1 []))) =
      l.map (fun pk => defaultRegistryEvent pk.2 pk.1 [])
  | [] => rfl
  | p :: rest => by
    rw [List.map_cons, List.filterMap_cons]
    rw [show emRegistryEvent (Emission.event (defaultRegistryEvent p.2 p.1 [])) =
      some (defaultRegistryEvent p.2 p.1 []) from rfl]
    rw [filterMap_em_map_default rest, List.map_cons]

/-- Under tree safety the registry events of the root-children loop are
exactly the pre-order default events of the children's subtrees. -/
theorem parseRootChildren_registry_safe : ∀ f : RegfForest,
    (∀ j ∈ RegfForest.allKeys f, ∀ v ∈ j.values, valueSafe v = true) →
    registryEventsOf (parseRootChildren f) =
      (preorderForest f ["", "Root"]).map (fun pk => defaultRegistryEvent pk.2 pk.1 [])
  | .nil, _ => rfl
  | .cons sub rest, h => by
    have h1 : ∀ j ∈ sub.allKeys, ∀ v ∈ j.values, valueSafe v = true :=
      fun j hj => h j (by rw [allKeys_cons]; exact List.mem_append_left _ hj)
    have h2 : ∀ j ∈ RegfForest.allKeys rest, ∀ v ∈ j.values, valueSafe v = true :=
      fun j hj => h j (by rw [allKeys_cons]; exact List.mem_append_right _ hj)
    have hnc1 : (ParseSubKey sub (["", "Root"] ++ [sub.name])).crashed = false := by
      rw [parseSubKey_safe sub _ h1]
    have hnc2 := specializedRun_noCrash sub h1
    have hsubreg : registryEventsOf (ParseSubKey sub (["", "Root"] ++ [sub.name])) =
        (preorderAux sub (["", "Root"] ++ [sub.name])).map
          (fun pk => defaultRegistryEvent pk.2 pk.1 []) := by
      rw [parseSubKey_safe sub _ h1]
      exact filterMap_em_map_default _
    rw [parseRootChildren, registryEventsOf_seq, registryEventsOf_seq,
      registryEventsOf_specialized, hsubreg,
      parseRootChildren_registry_safe rest h2, preorderForest]
    rw [Run.seq_crashed, hnc1, hnc2]
    simp

/-! ## Claim C9 -/

/-- Claim C9 counterexample: on `c9BadTree` the `File` subtree's
specialized decoding crashes (faulted `'17'` read), so the later child
`Other` is never visited: only four generic key-visit events are emitted
for a five-key tree, refuting "every visited key of the tree (the Root
key and every descendant) yields exactly one generic key-visit event". -/
theorem c9_fault_counterexample :
    (registryEventsOf (ParseRootKey c9BadTree)).length = 4 ∧
      (preorderKeys c9BadTree).length = 5 ∧
      (ParseRootKey c9BadTree).crashed = true := by
  refine ⟨by decide, by decide, by decide⟩

/-- Claim C9 (amended): for every tree whose value reads succeed and
whose sha1 values decode as text (so the specialized decoding cannot
raise), the traversal never crashes; its emission stream is the generic
event of `Root` (path the backslash-join of the stack `["", "Root"]`)
followed, child by child in order, by the whole generic subtree walk of
that child and then its specialized `File`/`Programs` events; and the
generic key-visit events are exactly one per key, in depth-first
pre-order (each parent's event preceding its children's), carrying the
backslash-joined segment-stack paths. -/
theorem c9_preorder_amended (root_key : RegfKey) (hsafe : treeSafe root_key) :
    (ParseRootKey root_key).crashed = false ∧
      (ParseRootKey root_key).out =
        Emission.event (defaultRegistryEvent root_key "\\Root" []) ::
          (RegfForest.toList root_key.subKeys).flatMap (fun sub =>
            (ParseSubKey sub (["", "Root"] ++ [sub.name])).out ++
              (specializedRun sub).out) ∧
      registryEventsOf (ParseRootKey root_key) =
        (preorderKeys root_key).map (fun pk => defaultRegistryEvent pk.2 pk.1 []) := by
  unfold treeSafe at hsafe
  have hself : ∀ v ∈ root_key.values, v.readFault = false :=
    fun v hv => valueSafe_fault (hsafe _ (self_mem_allKeys _) v hv)
  have hsubs : ∀ j ∈ RegfForest.allKeys root_key.subKeys, ∀ v ∈ j.values,
      valueSafe v = true :=
    fun j hj => hsafe j (subKeys_allKeys_subset root_key hj)
  refine ⟨?_, ?_, ?_⟩
  · unfold ParseRootKey
    rw [Run.seq_crashed, ProduceDefault_noFault _ _ _ hself,
      parseRootChildren_safe _ hsubs]
    rfl
  · unfold ParseRootKey
    rw [ProduceDefault_noFault _ _ _ hself, parseRootChildren_safe _ hsubs]
    rfl
  · unfold ParseRootKey
    rw [registryEventsOf_seq, ProduceDefault_noFault _ _ _ hself,
      parseRootChildren_registry_safe _ hsubs]
    unfold preorderKeys
    cases root_key with
    | node n t vs subs =>
      rw [preorderAux]
      rw [show pyJoin "\\" ["", "Root"] = "\\Root" from by decide]
      simp [registryEventsOf, emRegistryEvent, RegfKey.subKeys]
      rfl

/-- Claim C9 witness: on the safe tree `c9wTree` (a `File` subtree with a
file-reference key and a `Programs` subtree with a program key) the
traversal emits exactly the six pre-order generic events and never
crashes. -/
theorem c9_preorder_witness :
    treeSafe c9wTree ∧
      ((ParseRootKey c9wTree).crashed = false ∧
        (ParseRootKey c9wTree).out =
          Emission.event (defaultRegistryEvent c9wTree "\\Root" []) ::
            (RegfForest.toList c9wTree.subKeys).flatMap (fun sub =>
              (ParseSubKey sub (["", "Root"] ++ [sub.name])).out ++
                (specializedRun sub).out) ∧
        registryEventsOf (ParseRootKey c9wTree) =
          (preorderKeys c9wTree).map (fun pk => defaultRegistryEvent pk.2 pk.1 [])) :=
  ⟨by decide, c9_preorder_amended c9wTree (by decide)⟩

/-! ## Claim C10 -/

theorem event_not_mem_warnings {ws : List String} {e : Event}
    (h : Emission.event e ∈ ws.map Emission.warning) : False := by
  rcases List.mem_map.mp h with ⟨w, _, hw⟩
  cases hw

theorem ProduceDefault_event_mem {k : RegfKey} {path : String} {skip : List String}
    {e : Event}
    (h : Emission.event e ∈ (ProduceDefaultWindowsRegistryEvent k path skip).out) :
    e = defaultRegistryEvent k path skip := by
  unfold ProduceDefaultWindowsRegistryEvent at h
  dsimp only at h
  rcases List.mem_append.mp h with h | h
  · exact (event_not_mem_warnings h).elim
  · have heq := List.mem_singleton.mp h
    injection heq

theorem produceTimeEvent_event_data {k : RegfKey} {n : String}
    {clock : Int → DateTimeVal} {desc : TimeDescription} {dat : EventDataRec} {e : Event}
    (h : Emission.event e ∈ (produceTimeEvent k n clock desc dat).out) :
    e.data = dat := by
  unfold produceTimeEvent at h
  rcases hv : getValueByName k n with _ | v
  · rw [hv] at h
    cases h
  · rw [hv] at h
    dsimp only at h
    split_ifs at h
    · cases h
    · have heq := List.mem_singleton.mp h
      injection heq with h'
      rw [h']

theorem ParseFileReferenceKey_event_data {k : RegfKey} {e : Event}
    (h : Emission.event e ∈ (ParseFileReferenceKey k).out) :
    ∃ d, e.data = EventDataRec.file d := by
  unfold ParseFileReferenceKey at h
  rcases Run.seq_out_subset h with h | h
  rotate_left
  · exact ⟨_, produceTimeEvent_event_data h⟩
  rcases Run.seq_out_subset h with h | h
  rotate_left
  · exact ⟨_, produceTimeEvent_event_data h⟩
  rcases Run.seq_out_subset h with h | h
  rotate_left
  · exact ⟨_, produceTimeEvent_event_data h⟩
  rcases Run.seq_out_subset h with h | h
  rotate_left
  · exact ⟨_, produceTimeEvent_event_data h⟩
  exact (event_not_mem_warnings h).elim

theorem parseFileRefs_event_data : ∀ (f : RegfForest) {e : Event},
    Emission.event e ∈ (parseFileRefs f).out → ∃ d, e.data = EventDataRec.file d
  | .nil, e, h => by cases h
  | .cons k rest, e, h => by
    unfold parseFileRefs at h
    rcases Run.seq_out_subset h with h | h
    · exact ParseFileReferenceKey_event_data h
    · exact parseFileRefs_event_data rest h

theorem parseVolumes_event_data : ∀ (f : RegfForest) {e : Event},
    Emission.event e ∈ (parseVolumes f).out → ∃ d, e.data = EventDataRec.file d
  | .nil, e, h => by cases h
  | .cons vol rest, e, h => by
    unfold parseVolumes at h
    rcases Run.seq_out_subset h with h | h
    · exact parseFileRefs_event_data _ h
    · exact parseVolumes_event_data rest h

theorem ParseProgramKey_event_data {k : RegfKey} {e : Event}
    (h : Emission.event e ∈ (ParseProgramKey k).out) :
    ∃ d, e.data = EventDataRec.program d := by
  unfold ParseProgramKey at h
  rcases Run.seq_out_subset h with h | h
  · exact (event_not_mem_warnings h).elim
  · exact ⟨_, produceTimeEvent_event_data h⟩

theorem parseProgramList_event_data : ∀ (f : RegfForest) {e : Event},
    Emission.event e ∈ (parseProgramList f).out → ∃ d, e.data = EventDataRec.program d
  | .nil, e, h => by cases h
  | .cons k rest, e, h => by
    unfold parseProgramList at h
    rcases Run.seq_out_subset h with h | h
    · exact ParseProgramKey_event_data h
    · exact parseProgramList_event_data rest h

theorem specializedRun_not_registry {sub : RegfKey} {e : Event}
    (h : Emission.event e ∈ (specializedRun sub).out) :
    ∀ d, e.data ≠ EventDataRec.registry d := by
  unfold specializedRun at h
  split_ifs at h
  · obtain ⟨d', hd⟩ := parseVolumes_event_data _ h
    intro d hc
    rw [hd] at hc
    cases hc
  · obtain ⟨d', hd⟩ := parseProgramList_event_data _ h
    intro d hc
    rw [hd] at hc
    cases hc
  · cases h

mutual
/-- Every event of the generic subtree walk is the default registry
event of some key of the subtree (no safety assumptions). -/
theorem parseSubKey_event_mem : ∀ (k : RegfKey) (segs : List String) (e : Event),
    Emission.event e ∈ (ParseSubKey k segs).out →
    ∃ j p, j ∈ k.allKeys ∧ e = defaultRegistryEvent j p []
  | .node n t vs subs, segs, e, h => by
    rw [ParseSubKey] at h
    rcases Run.seq_out_subset h with h | h
    · exact ⟨.node n t vs subs, pyJoin "\\" segs, self_mem_allKeys _,
        ProduceDefault_event_mem h⟩
    · obtain ⟨j, p, hj, he⟩ := parseSubKeyForest_event_mem subs segs e h
      exact ⟨j, p, by rw [allKeys_node]; exact List.mem_cons_of_mem _ hj, he⟩

theorem parseSubKeyForest_event_mem : ∀ (f : RegfForest) (segs : List String) (e : Event),
    Emission.event e ∈ (parseSubKeyForest f segs).out →
    ∃ j p, j ∈ RegfForest.allKeys f ∧ e = defaultRegistryEvent j p []
  | .nil, _, e, h => by cases h
  | .cons k rest, segs, e, h => by
    rw [parseSubKeyForest] at h
    rcases Run.seq_out_subset h with h | h
    · obtain ⟨j, p, hj, he⟩ := parseSubKey_event_mem k (segs ++ [k.name]) e h
      exact ⟨j, p, by rw [allKeys_cons]; exact List.mem_append_left _ hj, he⟩
    · obtain ⟨j, p, hj, he⟩ := parseSubKeyForest_event_mem rest segs e h
      exact ⟨j, p, by rw [allKeys_cons]; exact List.mem_append_right _ hj, he⟩
end

theorem parseRootChildren_event_mem : ∀ (f : RegfForest) (e : Event),
    Emission.event e ∈ (parseRootChildren f).out →
    (∃ j p, j ∈ RegfForest.allKeys f ∧ e = defaultRegistryEvent j p []) ∨
      (∀ d, e.data ≠ EventDataRec.registry d)
  | .nil, e, h => by cases h
  | .cons sub rest, e, h => by
    rw [parseRootChildren] at h
    rcases Run.seq_out_subset h with h | h
    · rcases Run.seq_out_subset h with h | h
      · obtain ⟨j, p, hj, he⟩ := parseSubKey_event_mem sub _ e h
        exact Or.inl ⟨j, p, by rw [allKeys_cons]; exact List.mem_append_left _ hj, he⟩
      · exact Or.inr (specializedRun_not_registry h)
    · rcases parseRootChildren_event_mem rest e h with ⟨j, p, hj, he⟩ | hnr
      · exact Or.inl ⟨j, p, by rw [allKeys_cons]; exact List.mem_append_right _ hj, he⟩
      · exact Or.inr hnr

/-- Claim C10: for every visited key, the generic key-visit event's
timestamp is the key's last-written time as a 64-bit FILETIME tick
counter and its description tag is the written time description — every
registry-data event of any run of the parser arises as the default
registry event of some key of the hive, regardless of whether any
specialized File/Program event is also produced for that key. -/
theorem c10_written_timestamp (inp : HiveInput) (e : Event)
    (hmem : Emission.event e ∈ (ParseFileObject inp).out)
    (hreg : ∃ d, e.data = EventDataRec.registry d) :
    ∃ j p, j ∈ hiveKeys inp ∧ e = defaultRegistryEvent j p [] ∧
      e.dt = DateTimeVal.filetime j.lastWrittenTime ∧
      e.desc = TimeDescription.written := by
  cases inp with
  | openError => cases hmem
  | file o =>
    cases o with
    | none =>
      unfold ParseFileObject at hmem
      rcases List.mem_singleton.mp hmem with heq
      cases heq
    | some root_key =>
      unfold ParseFileObject ParseRootKey at hmem
      rcases Run.seq_out_subset hmem with h | h
      · have he := ProduceDefault_event_mem h
        exact ⟨root_key, "\\Root", self_mem_allKeys _, he, by rw [he]; rfl,
          by rw [he]; rfl⟩
      · rcases parseRootChildren_event_mem _ e h with ⟨j, p, hj, he⟩ | hnr
        · exact ⟨j, p, subKeys_allKeys_subset root_key hj, he, by rw [he]; rfl,
            by rw [he]; rfl⟩
        · obtain ⟨d, hd⟩ := hreg
          exact absurd hd (hnr d)

/-- Claim C10 witness: the single generic event of the one-key tree
`c10Tree` carries the FILETIME timestamp 31337 (its last-written time)
and the written description. -/
theorem c10_written_timestamp_witness :
    Emission.event c10Event ∈ (ParseFileObject (.file (some c10Tree))).out ∧
      (∃ j p, j ∈ hiveKeys (.file (some c10Tree)) ∧ c10Event = defaultRegistryEvent j p [] ∧
        c10Event.dt = DateTimeVal.filetime j.lastWrittenTime ∧
        c10Event.desc = TimeDescription.written) :=
  ⟨by decide, c10_written_timestamp (.file (some c10Tree)) c10Event (by decide) ⟨_, rfl⟩⟩

end Amcache
